/-
Verification of the localmarketingaudit-scorecard PDF mail-merge engine.

Shallow embedding of the TypeScript sources:
  * `PdfService` (content-stream scanner / placeholder blanker / draw phase),
  * the text-metrics module (`FONT_METRICS`, `calculateTextWidth`, `wrapText`),
  * `ScoringService.getTier`, the tier table brackets,
  * `getScoreOpacity` and `getLowestPillar`.

Strings from the content streams are modelled as `List Char`; JS numbers
appearing in the engine are modelled as `ℚ` (the operations used by the
verified claims are exact decimal arithmetic and comparisons).
-/
import Mathlib

namespace Scorecard

/-! ### Basic enumerations (from src types and config) -/

/-- `TierKey` from common/types/scoring.ts. -/
inductive TierKey where
  | at_risk
  | needs_improvement
  | growth_ready
  | market_leader
deriving DecidableEq, Repr

/-- `PillarKey` from common/types/scoring.ts. -/
inductive PillarKey where
  | visibility
  | conversion
  | reputation
  | marketing
  | tracking
deriving DecidableEq, Repr

/-- `FontKey` union type from pdf.service.ts. -/
inductive FontKey where
  | robotoRegular
  | robotoBold
  | robotoMedium
  | archivoBold
  | archivoExtraBold
deriving DecidableEq, Repr

/-- `PillarScores` record from common/types/scoring.ts (JS numbers as ℚ). -/
structure PillarScores where
  visibility : ℚ
  conversion : ℚ
  reputation : ℚ
  marketing : ℚ
  tracking : ℚ
deriving DecidableEq, Repr

/-! ### ScoringService.getTier and the tier table brackets -/

/-- `ScoringService.getTier` (scoring.service):
`score <= 30 → at_risk; <= 55 → needs_improvement; <= 75 → growth_ready;
else market_leader`. -/
def getTier (score : ℚ) : TierKey :=
  if score ≤ 30 then .at_risk
  else if score ≤ 55 then .needs_improvement
  else if score ≤ 75 then .growth_ready
  else .market_leader

/-- `scoreMin` field of the `tiers` config table (config/tiers). -/
def tierScoreMin : TierKey → ℚ
  | .at_risk => 0
  | .needs_improvement => 31
  | .growth_ready => 56
  | .market_leader => 76

/-- `scoreMax` field of the `tiers` config table (config/tiers). -/
def tierScoreMax : TierKey → ℚ
  | .at_risk => 30
  | .needs_improvement => 55
  | .growth_ready => 75
  | .market_leader => 100

/-! ### Pillar dot opacity (pdf.service.ts getScoreOpacity) -/

/-- `getScoreOpacity`: `score >= 16 → 1.0; score >= 11 → 0.75; else 0.5`. -/
def getScoreOpacity (score : ℚ) : ℚ :=
  if score ≥ 16 then 1
  else if score ≥ 11 then 3/4
  else 1/2

/-! ### Text-metrics module (pdf-metrics: FONT_METRICS, calculateTextWidth, wrapText) -/

/-- `FontMetrics` interface from the metrics module. -/
structure FontMetrics where
  widths : List ℕ
  firstChar : ℕ
  lastChar : ℕ
  defaultWidth : ℕ
deriving DecidableEq, Repr

/-- `FONT_METRICS['Roboto-Bold']`. -/
def robotoBoldMetrics : FontMetrics :=
  { firstChar := 32, lastChar := 125, defaultWidth := 500,
    widths := [
      249, 0, 0, 0, 0, 0, 656, 0, 0, 0, 0, 0, 0, 0, 0, 0,
      574, 574, 0, 0, 0, 0, 0, 0, 0, 0, 0, 0, 0, 0, 0, 0,
      0, 673, 638, 654, 650, 0, 548, 0, 0, 0, 0, 0, 542, 876, 706, 690,
      645, 0, 638, 615, 619, 658, 654, 875, 0, 618, 0, 0, 0, 0, 0, 446,
      0, 536, 563, 521, 0, 541, 358, 571, 560, 265, 0, 534, 265, 866, 560, 565,
      563, 0, 365, 514, 338, 560, 505, 0, 509, 502, 0, 330, 0, 330] }

/-- `FONT_METRICS['Roboto-Regular']`. -/
def robotoRegularMetrics : FontMetrics :=
  { firstChar := 32, lastChar := 125, defaultWidth := 500,
    widths := [
      248, 0, 0, 0, 0, 0, 0, 174, 342, 348, 0, 0, 196, 276, 263, 412,
      562, 562, 562, 0, 0, 562, 562, 0, 0, 0, 242, 0, 0, 0, 0, 0,
      0, 652, 623, 651, 656, 0, 553, 0, 0, 272, 0, 0, 538, 873, 713, 0,
      631, 0, 0, 593, 597, 0, 0, 0, 0, 0, 265, 0, 265, 0, 451, 0,
      544, 561, 523, 564, 530, 347, 561, 551, 243, 0, 507, 243, 876, 552, 570,
      561, 0, 338, 516, 327, 551, 484, 751, 496, 473, 0, 338, 0, 338] }

/-- `FONT_METRICS['Roboto-Medium']`. -/
def robotoMediumMetrics : FontMetrics :=
  { firstChar := 32, lastChar := 125, defaultWidth := 500,
    widths := [
      249, 0, 0, 0, 0, 0, 0, 0, 0, 0, 0, 0, 0, 0, 0, 0,
      0, 0, 0, 0, 0, 0, 0, 0, 0, 0, 0, 0, 0, 0, 0, 0,
      0, 0, 0, 0, 0, 0, 549, 0, 0, 0, 0, 0, 0, 875, 710, 0,
      0, 0, 0, 604, 0, 652, 0, 0, 0, 0, 0, 0, 0, 0, 0, 451,
      0, 541, 0, 523, 0, 537, 0, 567, 0, 0, 0, 522, 255, 870, 556, 569,
      0, 0, 352, 0, 333, 556, 0, 0, 0, 487, 0, 335, 0, 335] }

/-- `FONT_METRICS['Archivo-ExtraBold']`. -/
def archivoExtraBoldMetrics : FontMetrics :=
  { firstChar := 32, lastChar := 125, defaultWidth := 500,
    widths := [
      189, 0, 0, 0, 0, 0, 0, 0, 0, 0, 0, 0, 0, 0, 0, 0,
      0, 0, 0, 0, 0, 0, 0, 0, 0, 0, 0, 0, 0, 0, 0, 0,
      0, 746, 745, 752, 755, 0, 0, 0, 787, 0, 0, 0, 623, 914, 787, 0,
      698, 0, 750, 697, 0, 0, 0, 0, 0, 0, 0, 0, 0, 0, 0, 534,
      0, 616, 0, 612, 0, 619, 0, 632, 629, 288, 0, 610, 288, 937, 629, 635,
      633, 0, 407, 579, 385, 629, 574, 859, 0, 574, 0, 391, 0, 391] }

/-- `FONT_METRICS['Archivo-Bold']`. -/
def archivoBoldMetrics : FontMetrics :=
  { firstChar := 32, lastChar := 121, defaultWidth := 500,
    widths := [
      196, 0, 0, 0, 0, 0, 0, 0, 0, 0, 0, 0, 0, 0, 0, 0,
      595, 0, 596, 596, 0, 595, 596, 596, 0, 0, 0, 0, 0, 0, 0, 0,
      0, 724, 722, 0, 739, 0, 622, 802, 0, 0, 0, 0, 0, 0, 0, 793,
      681, 0, 0, 679, 0, 0, 0, 0, 0, 699, 0, 0, 0, 0, 0, 0,
      580, 608, 573, 608, 584, 0, 607, 602, 267, 0, 570, 267, 891, 602, 613,
      608, 0, 380, 556, 342, 601, 547, 798, 0, 547] }

/-- The `FONT_METRICS` record, keyed by base font name. -/
def FONT_METRICS (fontName : String) : Option FontMetrics :=
  if fontName = "Roboto-Bold" then some robotoBoldMetrics
  else if fontName = "Roboto-Regular" then some robotoRegularMetrics
  else if fontName = "Roboto-Medium" then some robotoMediumMetrics
  else if fontName = "Archivo-ExtraBold" then some archivoExtraBoldMetrics
  else if fontName = "Archivo-Bold" then some archivoBoldMetrics
  else none

/-- Advance width of one character: the loop body of `calculateTextWidth`.
`idx >= 0 && idx < widths.length && widths[idx] !== 0 ? widths[idx] : defaultWidth`. -/
def charAdvance (m : FontMetrics) (c : Char) : ℕ :=
  let code := c.toNat
  if code < m.firstChar then m.defaultWidth
  else
    match m.widths.get? (code - m.firstChar) with
    | some w => if w = 0 then m.defaultWidth else w
    | none => m.defaultWidth

/-- `calculateTextWidth(text, fontName, fontSize)`: sum of per-character
advances scaled by `fontSize/1000`; unknown font falls back to
`text.length * 0.5 * fontSize`. -/
def calculateTextWidth (text : List Char) (fontName : String) (fontSize : ℚ) : ℚ :=
  match FONT_METRICS fontName with
  | none => (text.length : ℚ) * (1/2) * fontSize
  | some m => (((text.map (charAdvance m)).sum : ℕ) : ℚ) / 1000 * fontSize

/-- JS `text.split(' ')`: split on single space characters, keeping empty
fragments (so `"".split(' ') = [""]` and `"a  b".split(' ') = ["a","","b"]`). -/
def splitSp : List Char → List (List Char)
  | [] => [[]]
  | c :: rest =>
    if c = ' ' then [] :: splitSp rest
    else
      match splitSp rest with
      | [] => [[c]]
      | w :: ws => (c :: w) :: ws

/-- The loop of `wrapText`, generic in the width function so it covers both
the metrics-module version (width = `calculateTextWidth`) and the
pdf.service version (width = `font.widthOfTextAtSize`).  State is
`(lines, currentLine)`; a word is appended to the current line unless the
candidate exceeds `maxWidth` and the current line is non-empty. -/
def wrapAux (width : List Char → ℚ) (maxWidth : ℚ) :
    List (List Char) → List (List Char) → List Char → List (List Char)
  | [], lines, currentLine =>
      if currentLine = [] then lines else lines ++ [currentLine]
  | word :: words, lines, currentLine =>
      let candidate := if currentLine = [] then word else currentLine ++ ' ' :: word
      if maxWidth < width candidate ∧ currentLine ≠ [] then
        wrapAux width maxWidth words (lines ++ [currentLine]) word
      else
        wrapAux width maxWidth words lines candidate

/-- `wrapText` with an abstract width function. -/
def wrapTextW (width : List Char → ℚ) (text : List Char) (maxWidth : ℚ) :
    List (List Char) :=
  wrapAux width maxWidth (splitSp text) [] []

/-- `wrapText(text, fontName, fontSize, maxWidthPt)` from the metrics module. -/
def wrapText (text : List Char) (fontName : String) (fontSize maxWidthPt : ℚ) :
    List (List Char) :=
  wrapTextW (fun cand => calculateTextWidth cand fontName fontSize) text maxWidthPt

/-- The whitespace-delimited word sequence of a string: the non-empty
fragments of the space-split. -/
def nonEmptyWords (s : List Char) : List (List Char) :=
  (splitSp s).filter (fun w => !w.isEmpty)

/-- Join lines with single spaces (JS `lines.join(' ')`). -/
def joinSp : List (List Char) → List Char
  | [] => []
  | [l] => l
  | l :: ls => l ++ ' ' :: joinSp ls

/-! ### Character and substring utilities (JS string primitives)

Brace characters are written with hex escapes below. -/

/-- JS `\s` whitespace (ASCII part). -/
def isWsChar (c : Char) : Bool :=
  c = ' ' || c = '\t' || c = '\n' || c = '\r' || c = '\x0b' || c = '\x0c'

/-- JS `String.prototype.trim`. -/
def trimChars (s : List Char) : List Char :=
  ((s.dropWhile isWsChar).reverse.dropWhile isWsChar).reverse

def startsWithList : List Char → List Char → Bool
  | [], _ => true
  | _ :: _, [] => false
  | a :: as, b :: bs => a = b && startsWithList as bs

/-- JS `hay.includes(needle)`. -/
def includesSub (needle : List Char) : List Char → Bool
  | [] => startsWithList needle []
  | c :: rest => startsWithList needle (c :: rest) || includesSub needle rest

/-- JS `hay.indexOf(needle)` (`none` for -1). -/
def indexOfSub (needle : List Char) : List Char → Option ℕ
  | [] => if startsWithList needle [] then some 0 else none
  | c :: rest =>
    if startsWithList needle (c :: rest) then some 0
    else (indexOfSub needle rest).map (· + 1)

/-- JS `key.endsWith(suffix)`. -/
def endsWithList (suffix l : List Char) : Bool :=
  startsWithList suffix.reverse l.reverse

/-- Require an expected literal at the front, returning the remainder. -/
def stripPre : List Char → List Char → Option (List Char)
  | [], l => some l
  | _ :: _, [] => none
  | p :: ps, c :: cs => if p = c then stripPre ps cs else none

/-! ### Number parsing (JS parseFloat on regex-matched operands) -/

def digitsVal (ds : List Char) : ℕ :=
  ds.foldl (fun a c => a * 10 + (c.toNat - 48)) 0

/-- `parseFloat` on strings matched by `-?[\d.]+` (no sign here): integer
digits, then an optional fraction after the first dot; anything after a
second dot is ignored.  (A match with no digit at all, like ".", is NaN in
JS; it is modelled as 0 and never arises in the verified claims.) -/
def parseNumPos (t : List Char) : ℚ :=
  let ip := t.takeWhile Char.isDigit
  let r := t.dropWhile Char.isDigit
  match r with
  | '.' :: r2 =>
    let fp := r2.takeWhile Char.isDigit
    (digitsVal ip : ℚ) + (digitsVal fp : ℚ) / (10 : ℚ) ^ fp.length
  | _ => (digitsVal ip : ℚ)

def parseNum : List Char → ℚ
  | '-' :: rest => -(parseNumPos rest)
  | t => parseNumPos t

/-! ### Operator matchers (the anchored per-line regexes of
`blankAndRecordPositions`, as deterministic scanners) -/

def isNumChar (c : Char) : Bool := c.isDigit || c = '.'

/-- `\s+`: one-or-more whitespace, returning what follows. -/
def skipWs1 : List Char → Option (List Char)
  | [] => none
  | c :: rest => if isWsChar c then some (rest.dropWhile isWsChar) else none

/-- `[\d.]+`: one-or-more digit/dot characters, returning (match, rest). -/
def takeNum1 (l : List Char) : Option (List Char × List Char) :=
  let ds := l.takeWhile isNumChar
  if ds.isEmpty then none else some (ds, l.dropWhile isNumChar)

/-- `-?[\d.]+`. -/
def takeNumSigned : List Char → Option (List Char × List Char)
  | '-' :: rest => (takeNum1 rest).map (fun p => ('-' :: p.1, p.2))
  | l => takeNum1 l

/-- `/^\/(TT\d+)\s+[\d.]+\s+Tf$/`: font selection; returns the captured
resource name (e.g. "TT0"). -/
def tfMatch (l : List Char) : Option (List Char) := do
  let r ← stripPre ['/', 'T', 'T'] l
  let ds := r.takeWhile Char.isDigit
  if ds.isEmpty then none else do
  let r1 ← skipWs1 (r.dropWhile Char.isDigit)
  let (_, r2) ← takeNum1 r1
  let r3 ← skipWs1 r2
  let r4 ← stripPre ['T', 'f'] r3
  if r4.isEmpty then some ('T' :: 'T' :: ds) else none

/-- `/^([\d.]+)\s+([\d.]+)\s+([\d.]+)\s+([\d.]+)\s+k$/`: CMYK fill color. -/
def cmykMatch (l : List Char) : Option (ℚ × ℚ × ℚ × ℚ) := do
  let (n1, r1) ← takeNum1 l
  let r2 ← skipWs1 r1
  let (n2, r3) ← takeNum1 r2
  let r4 ← skipWs1 r3
  let (n3, r5) ← takeNum1 r4
  let r6 ← skipWs1 r5
  let (n4, r7) ← takeNum1 r6
  let r8 ← skipWs1 r7
  let r9 ← stripPre ['k'] r8
  if r9.isEmpty then some (parseNum n1, parseNum n2, parseNum n3, parseNum n4)
  else none

/-- `/^([\d.]+)\s+g$/`: grayscale fill color. -/
def grayMatch (l : List Char) : Option ℚ := do
  let (n1, r1) ← takeNum1 l
  let r2 ← skipWs1 r1
  let r3 ← stripPre ['g'] r2
  if r3.isEmpty then some (parseNum n1) else none

/-- `Tm` matcher (six signed operands); the scanner uses operands 1, 4, 5, 6
(a, d, tx, ty), which are returned in that order. -/
def tmMatch (l : List Char) : Option (ℚ × ℚ × ℚ × ℚ) := do
  let (a, r1) ← takeNumSigned l
  let r2 ← skipWs1 r1
  let (_, r3) ← takeNumSigned r2
  let r4 ← skipWs1 r3
  let (_, r5) ← takeNumSigned r4
  let r6 ← skipWs1 r5
  let (d, r7) ← takeNumSigned r6
  let r8 ← skipWs1 r7
  let (tx, r9) ← takeNumSigned r8
  let r10 ← skipWs1 r9
  let (ty, r11) ← takeNumSigned r10
  let r12 ← skipWs1 r11
  let r13 ← stripPre ['T', 'm'] r12
  if r13.isEmpty then some (parseNum a, parseNum d, parseNum tx, parseNum ty)
  else none

/-- `/^(-?[\d.]+)\s+(-?[\d.]+)\s+T[dD]$/`: relative text move. -/
def tdMatch (l : List Char) : Option (ℚ × ℚ) := do
  let (dx, r1) ← takeNumSigned l
  let r2 ← skipWs1 r1
  let (dy, r3) ← takeNumSigned r2
  let r4 ← skipWs1 r3
  let r5 ← stripPre ['T'] r4
  match r5 with
  | ['d'] => some (parseNum dx, parseNum dy)
  | ['D'] => some (parseNum dx, parseNum dy)
  | _ => none

/-! ### TJ array text extraction and show-text matchers -/

/-- State machine for the global regex `\(([^)]*)\)` of `extractTJText`:
`some acc` means inside a parenthesis group with reversed body `acc`; a
group body runs to the first `)`; an unterminated trailing group matches
nothing and is dropped, and characters between groups (numeric kerning
values) are discarded. -/
def extractAux : List Char → Option (List Char) → List Char
  | [], _ => []
  | c :: rest, some acc =>
    if c = ')' then acc.reverse ++ extractAux rest none
    else extractAux rest (some (c :: acc))
  | c :: rest, none =>
    if c = '(' then extractAux rest (some [])
    else extractAux rest none

/-- `extractTJText(arrayContent)`: concatenate the string parts of a TJ
array, stripping kerning values. -/
def extractTJText (s : List Char) : List Char :=
  extractAux s none

/-- Parser for the TJ-array interior `(?:\([^)]*\)|[^\[\]])*\]`, returning
(content, rest after the closing bracket).  `some acc` is the
inside-a-paren-group state.  A `(` opens a group only when a `)` exists
later (the regex alternation prefers `\([^)]*\)` and otherwise falls back
to consuming `(` via `[^\[\]]`); exotic backtracking inside malformed
arrays is not reproduced. -/
def tjBodyAux : List Char → Option (List Char) → Option (List Char × List Char)
  | [], _ => none
  | c :: rest, some acc =>
    if c = ')' then
      (tjBodyAux rest none).map
        (fun p => ('(' :: acc.reverse ++ ')' :: p.1, p.2))
    else tjBodyAux rest (some (c :: acc))
  | c :: rest, none =>
    if c = '(' ∧ ')' ∈ rest then tjBodyAux rest (some [])
    else if c = ']' then some ([], rest)
    else if c = '[' then none
    else (tjBodyAux rest none).map (fun p => (c :: p.1, p.2))

/-- `/^\[((?:\([^)]*\)|[^\[\]])*)\]\s*TJ$/`: show-text-array operator on a
trimmed line; returns the array content. -/
def tjArrayMatch (l : List Char) : Option (List Char) :=
  match l with
  | [] => none
  | c :: rest =>
    if c = '[' then
      match tjBodyAux rest none with
      | some (content, r) =>
        if r.dropWhile isWsChar = ['T', 'J'] then some content else none
      | none => none
    else none

/-- `/^\(([^)]*)\)\s*Tj$/`: simple show-text operator on a trimmed line;
returns the string literal. -/
def tjSimpleMatch (l : List Char) : Option (List Char) :=
  match l with
  | [] => none
  | c :: rest =>
    if c = '(' then
      match rest.dropWhile (· != ')') with
      | ')' :: r2 =>
        if r2.dropWhile isWsChar = ['T', 'j']
        then some (rest.takeWhile (· != ')')) else none
      | _ => none
    else none

/-! ### Placeholders and the scan state -/

/-- `ALL_PLACEHOLDERS`: the 15 template tokens. -/
def ALL_PLACEHOLDERS : List (List Char) :=
  ["\x7b\x7bBusiness_Name\x7d\x7d".toList,
   "\x7b\x7bCity_or_Service_Area\x7d\x7d".toList,
   "\x7b\x7bReport_Date\x7d\x7d".toList,
   "\x7b\x7bTotal_Score\x7d\x7d".toList,
   "\x7b\x7bSegment_Name\x7d\x7d".toList,
   "\x7b\x7bSegment_One_Liner\x7d\x7d".toList,
   "\x7b\x7bVisibility_Score\x7d\x7d".toList,
   "\x7b\x7bConversion_Score\x7d\x7d".toList,
   "\x7b\x7bReputation_Score\x7d\x7d".toList,
   "\x7b\x7bMarketing_Score\x7d\x7d".toList,
   "\x7b\x7bTracking_Score\x7d\x7d".toList,
   "\x7b\x7bLowest_Pillar_Name\x7d\x7d".toList,
   "\x7b\x7bLowest_Pillar_Impact_Statement\x7d\x7d".toList,
   "\x7b\x7bSegment_Description_Block\x7d\x7d".toList,
   "\x7b\x7bPrimary_Focus_Area\x7d\x7d".toList]

/-- `findPlaceholder(text)`: first token contained in `text`, else null. -/
def findPlaceholder (text : List Char) : Option (List Char) :=
  ALL_PLACEHOLDERS.find? (fun key => includesSub key text)

/-- `concatenated.substring(concatenated.indexOf(foundKey) + foundKey.length)`.
(The `none` branch mirrors `indexOf` returning -1; it is unreachable when
`findPlaceholder` found the key.) -/
def suffixAfter (key text : List Char) : List Char :=
  match indexOfSub key text with
  | some i => text.drop (i + key.length)
  | none => text.drop (key.length - 1)

/-- Fill color: 1-channel grayscale or 4-channel process color. -/
inductive PdfColor where
  | gray (g : ℚ)
  | cmykColor (c m y k : ℚ)
deriving DecidableEq, Repr

/-- The mutable scanner state of `blankAndRecordPositions`. -/
structure ScanState where
  tmA : ℚ
  tmD : ℚ
  tmX : ℚ
  tmY : ℚ
  currentFontKey : FontKey
  fillColor : PdfColor
deriving DecidableEq, Repr

/-- Initial scanner state (`tmA = tmD = tmX = tmY = 0`,
`currentFontKey = robotoRegular`, `fillColor = {gray: 0}`). -/
def initScanState : ScanState :=
  { tmA := 0, tmD := 0, tmX := 0, tmY := 0,
    currentFontKey := .robotoRegular, fillColor := .gray 0 }

/-- `PlaceholderPosition` record. -/
structure PlaceholderPosition where
  key : List Char
  pageIndex : ℕ
  x : ℚ
  y : ℚ
  fontSize : ℚ
  fontKey : FontKey
  color : PdfColor
  suffix : List Char
deriving DecidableEq, Repr

/-- JS `a || b` on numbers (0 is falsy): used for `tmA || tmD`. -/
def jsOr (a b : ℚ) : ℚ := if a = 0 then b else a

/-- The `PlaceholderPosition` pushed for a matched show-text operator:
every field comes from the current scan state. -/
def recordedPosition (pageIndex : ℕ) (st : ScanState) (key text : List Char) :
    PlaceholderPosition :=
  { key := key, pageIndex := pageIndex, x := st.tmX, y := st.tmY,
    fontSize := jsOr st.tmA st.tmD, fontKey := st.currentFontKey,
    color := st.fillColor, suffix := suffixAfter key text }

/-- The blank replacement `'() Tj'`. -/
def blankTjLine : List Char := "() Tj".toList

/-! ### blankAndRecordPositions: per-line scanner step and fold -/

/-- The Tf/k/g state updates applied to every scanned line, in source
order (font selection, then CMYK fill, then grayscale fill). -/
def trackLineState (fontMap : List Char → Option FontKey) (st : ScanState)
    (trimmed : List Char) : ScanState :=
  let st1 :=
    match tfMatch trimmed with
    | some name =>
      match fontMap name with
      | some fk => { st with currentFontKey := fk }
      | none => st
    | none => st
  let st2 :=
    match cmykMatch trimmed with
    | some (c, m, y, k) => { st1 with fillColor := .cmykColor c m y k }
    | none => st1
  match grayMatch trimmed with
  | some g => { st2 with fillColor := .gray g }
  | none => st2

/-- One iteration of the `blankAndRecordPositions` loop: track Tf/k/g
state, handle Tm/Td, and blank-and-record a TJ/Tj operator containing a
placeholder.  Returns (new state, output line, recorded position). -/
def processLine (fontMap : List Char → Option FontKey) (pageIndex : ℕ)
    (st : ScanState) (line : List Char) :
    ScanState × List Char × Option PlaceholderPosition :=
  let trimmed := trimChars line
  let st3 := trackLineState fontMap st trimmed
  match tmMatch trimmed with
  | some (a, d, tx, ty) =>
    ({ st3 with tmA := a, tmD := d, tmX := tx, tmY := ty }, line, none)
  | none =>
  match tdMatch trimmed with
  | some (dx, dy) =>
    ({ st3 with tmX := st3.tmX + dx * st3.tmA,
                tmY := st3.tmY + dy * st3.tmD }, line, none)
  | none =>
  let tjFound : Option (List Char × List Char) :=
    match tjArrayMatch trimmed with
    | some content =>
      let concatenated := extractTJText content
      (findPlaceholder concatenated).map (fun k => (k, concatenated))
    | none => none
  match tjFound with
  | some (key, concatenated) =>
    (st3, blankTjLine, some (recordedPosition pageIndex st3 key concatenated))
  | none =>
  let tjSimpleFound : Option (List Char × List Char) :=
    match tjSimpleMatch trimmed with
    | some s => (findPlaceholder s).map (fun k => (k, s))
    | none => none
  match tjSimpleFound with
  | some (key, s) =>
    (st3, blankTjLine, some (recordedPosition pageIndex st3 key s))
  | none => (st3, line, none)

/-- Fold of `processLine` over the lines of a stream, collecting output
lines and recorded positions. -/
def blankRecordLines (fontMap : List Char → Option FontKey) (pageIndex : ℕ) :
    ScanState → List (List Char) → List (List Char) × List PlaceholderPosition
  | _, [] => ([], [])
  | st, line :: rest =>
    let r := processLine fontMap pageIndex st line
    let r2 := blankRecordLines fontMap pageIndex r.1 rest
    (r.2.1 :: r2.1, r.2.2.toList ++ r2.2)

/-- The scanner state after processing a list of lines. -/
def scanStateAfter (fontMap : List Char → Option FontKey) (pageIndex : ℕ) :
    ScanState → List (List Char) → ScanState
  | st, [] => st
  | st, line :: rest =>
    scanStateAfter fontMap pageIndex (processLine fontMap pageIndex st line).1 rest

/-- JS `s.split(sep)` for a single separator character. -/
def splitOnCh (sep : Char) : List Char → List (List Char)
  | [] => [[]]
  | c :: rest =>
    if c = sep then [] :: splitOnCh sep rest
    else
      match splitOnCh sep rest with
      | [] => [[c]]
      | w :: ws => (c :: w) :: ws

/-- JS `lines.join(sep)`. -/
def joinCh (sep : Char) : List (List Char) → List Char
  | [] => []
  | [l] => l
  | l :: ls => l ++ sep :: joinCh sep ls

/-- `blankAndRecordPositions(stream, pageIndex, fontMap, positions)`:
early-exit when the stream has no `&#x7b;&#x7b;`, else scan line-by-line;
returns the rewritten stream and the recorded positions (the source
appends them to a caller-supplied array). -/
def blankAndRecordPositions (stream : List Char) (pageIndex : ℕ)
    (fontMap : List Char → Option FontKey) :
    List Char × List PlaceholderPosition :=
  if includesSub ['\x7b', '\x7b'] stream then
    let r := blankRecordLines fontMap pageIndex initScanState (splitOnCh '\n' stream)
    (joinCh '\n' r.1, r.2)
  else (stream, [])

/-! ### blankDeveloperNote: global TJ-array scan -/

/-- Internal-note marker test of `blankDeveloperNote`. -/
def hasDevMarker (t : List Char) : Bool :=
  includesSub "Developer Note".toList t || includesSub "specific segment".toList t

/-- The global `replace` of `blankDeveloperNote`: scan for
`\[((?:\([^)]*\)|[^\[\]])*)\]\s*TJ` matches, blanking a match whose
extracted text has an internal-note marker and keeping it verbatim
otherwise; also collects every matched array content.  Fuel-indexed
(structurally recursive); `length + 1` fuel always suffices since each
step consumes at least one character. -/
def devNoteScan : ℕ → List Char → List Char × List (List Char)
  | 0, l => (l, [])
  | _ + 1, [] => ([], [])
  | fuel + 1, c :: rest =>
    if c = '[' then
      match tjBodyAux rest none with
      | some (content, r) =>
        let ws := r.takeWhile isWsChar
        let r2 := r.dropWhile isWsChar
        match stripPre ['T', 'J'] r2 with
        | some r3 =>
          let rec2 := devNoteScan fuel r3
          let original := '[' :: content ++ ']' :: (ws ++ ['T', 'J'])
          ((if hasDevMarker (extractTJText content) then blankTjLine else original)
              ++ rec2.1,
            content :: rec2.2)
        | none =>
          let rec2 := devNoteScan fuel rest
          ('[' :: rec2.1, rec2.2)
      | none =>
        let rec2 := devNoteScan fuel rest
        ('[' :: rec2.1, rec2.2)
    else
      let rec2 := devNoteScan fuel rest
      (c :: rec2.1, rec2.2)

/-- `blankDeveloperNote(stream)`. -/
def blankDeveloperNote (stream : List Char) : List Char :=
  (devNoteScan (stream.length + 1) stream).1

/-- The TJ-array contents matched by the `blankDeveloperNote` scan. -/
def devMatchedContents (stream : List Char) : List (List Char) :=
  (devNoteScan (stream.length + 1) stream).2

/-! ### Recognition predicates (spec side) -/

/-- The token recognized by a line, if any: a TJ/Tj show-text operator
whose (concatenated) text contains a placeholder. -/
def lineFoundKey (line : List Char) : Option (List Char) :=
  match tjArrayMatch (trimChars line) with
  | some content => findPlaceholder (extractTJText content)
  | none =>
    match tjSimpleMatch (trimChars line) with
    | some s => findPlaceholder s
    | none => none

/-- The fill color set by a line, if it is a fill-color operator
(grayscale `g` or CMYK `k`). -/
def lineFillColor (line : List Char) : Option PdfColor :=
  match grayMatch (trimChars line) with
  | some g => some (.gray g)
  | none =>
    match cmykMatch (trimChars line) with
    | some (c, m, y, k) => some (.cmykColor c m y k)
    | none => none

/-- The most recent fill-color operator in a list of lines, defaulting to
`{gray: 0}`: the specification side of the color-fidelity claim. -/
def lastFillColor (lines : List (List Char)) : PdfColor :=
  ((lines.filterMap lineFillColor).getLast?).getD (.gray 0)

/-- The concatenated shown text of a line's show-text operator ([] when the
line is not a show-text operator). -/
def lineShownText (line : List Char) : List Char :=
  match tjArrayMatch (trimChars line) with
  | some content => extractTJText content
  | none =>
    match tjSimpleMatch (trimChars line) with
    | some s => s
    | none => []

/-! ### TJ show-array fragments (for fragmentation invariance) -/

/-- One element of a TJ show-array: a string literal or a numeric kerning
adjustment (given by its operand text). -/
inductive TJItem where
  | str (s : List Char)
  | num (t : List Char)
deriving DecidableEq, Repr

/-- Rendering of a TJ item into array-content text. -/
def TJItem.render : TJItem → List Char
  | .str s => '(' :: s ++ [')']
  | .num t => t

/-- Well-formedness: string literals contain no closing parenthesis (PDF
literal syntax), numeric values consist of digit/dot/sign characters. -/
def TJItem.wf : TJItem → Prop
  | .str s => ')' ∉ s
  | .num t => ∀ c ∈ t, isNumChar c = true ∨ c = '-'

instance TJItem.wfDecidable : ∀ it : TJItem, Decidable it.wf
  | .str s => inferInstanceAs (Decidable (')' ∉ s))
  | .num t => inferInstanceAs (Decidable (∀ c ∈ t, isNumChar c = true ∨ c = '-'))

/-- The array content of a fragment list. -/
def renderTJ (items : List TJItem) : List Char :=
  (items.map TJItem.render).flatten

/-- The concatenation of the string literals alone. -/
def stringsOf (items : List TJItem) : List Char :=
  (items.filterMap (fun it =>
    match it with
    | .str s => some s
    | .num _ => none)).flatten

/-! ### Draw phase (Phase B loop of generatePdfBuffer) -/

/-- `value = rawValue + pos.suffix` at draw time. -/
def drawnValue (rawValue suffix : List Char) : List Char := rawValue ++ suffix

/-- `PAGE_WIDTH = 595.275`. -/
def PAGE_WIDTH : ℚ := 595275/1000

/-- `PlaceholderConfig` record. -/
structure PlaceholderConfig where
  fontKey : FontKey
  centered : Bool
  multiline : Bool
  maxWidth : ℚ
  lineHeight : ℚ
deriving DecidableEq, Repr

def tokBusinessName : List Char := "\x7b\x7bBusiness_Name\x7d\x7d".toList
def tokCity : List Char := "\x7b\x7bCity_or_Service_Area\x7d\x7d".toList
def tokReportDate : List Char := "\x7b\x7bReport_Date\x7d\x7d".toList
def tokTotalScore : List Char := "\x7b\x7bTotal_Score\x7d\x7d".toList
def tokSegmentName : List Char := "\x7b\x7bSegment_Name\x7d\x7d".toList
def tokSegmentOneLiner : List Char := "\x7b\x7bSegment_One_Liner\x7d\x7d".toList
def tokVisibilityScore : List Char := "\x7b\x7bVisibility_Score\x7d\x7d".toList
def tokConversionScore : List Char := "\x7b\x7bConversion_Score\x7d\x7d".toList
def tokReputationScore : List Char := "\x7b\x7bReputation_Score\x7d\x7d".toList
def tokMarketingScore : List Char := "\x7b\x7bMarketing_Score\x7d\x7d".toList
def tokTrackingScore : List Char := "\x7b\x7bTracking_Score\x7d\x7d".toList
def tokLowestPillarName : List Char := "\x7b\x7bLowest_Pillar_Name\x7d\x7d".toList
def tokLowestPillarImpact : List Char :=
  "\x7b\x7bLowest_Pillar_Impact_Statement\x7d\x7d".toList
def tokSegmentDescription : List Char :=
  "\x7b\x7bSegment_Description_Block\x7d\x7d".toList
def tokPrimaryFocusArea : List Char := "\x7b\x7bPrimary_Focus_Area\x7d\x7d".toList

/-- `PLACEHOLDER_CONFIG`: per-placeholder rendering config. -/
def PLACEHOLDER_CONFIG (key : List Char) : Option PlaceholderConfig :=
  if key = tokBusinessName then
    some ⟨.archivoExtraBold, false, false, 0, 0⟩
  else if key = tokCity then
    some ⟨.archivoExtraBold, false, false, 0, 0⟩
  else if key = tokReportDate then
    some ⟨.archivoExtraBold, false, false, 0, 0⟩
  else if key = tokTotalScore then
    some ⟨.robotoBold, true, false, 0, 0⟩
  else if key = tokSegmentName then
    some ⟨.robotoMedium, true, false, 0, 0⟩
  else if key = tokSegmentOneLiner then
    some ⟨.robotoBold, true, true, 450, 12/10⟩
  else if key = tokVisibilityScore then
    some ⟨.robotoBold, false, false, 0, 0⟩
  else if key = tokConversionScore then
    some ⟨.robotoBold, false, false, 0, 0⟩
  else if key = tokReputationScore then
    some ⟨.robotoBold, false, false, 0, 0⟩
  else if key = tokMarketingScore then
    some ⟨.robotoBold, false, false, 0, 0⟩
  else if key = tokTrackingScore then
    some ⟨.robotoBold, false, false, 0, 0⟩
  else if key = tokLowestPillarName then
    some ⟨.archivoExtraBold, false, false, 0, 0⟩
  else if key = tokLowestPillarImpact then
    some ⟨.robotoRegular, true, true, 450, 13/10⟩
  else if key = tokSegmentDescription then
    some ⟨.robotoRegular, false, true, 380, 135/100⟩
  else if key = tokPrimaryFocusArea then
    some ⟨.robotoRegular, false, false, 0, 0⟩
  else none

/-- Emitted page content: text runs and filled rectangles (the shapes the
verified claims are about). -/
inductive DrawOp where
  | text (pageIndex : ℕ) (s : List Char) (x y size : ℚ) (font : FontKey)
      (color : PdfColor)
  | rect (pageIndex : ℕ) (x y w h : ℚ) (color : PdfColor) (opacity : ℚ)
deriving DecidableEq, Repr

/-- `drawMultiline`: wrap and draw the lines top-to-bottom, centering each
line when configured.  `fw font size text` abstracts pdf-lib's
`font.widthOfTextAtSize(text, size)`. -/
def drawMultilineOps (fw : FontKey → ℚ → List Char → ℚ) (pageIndex : ℕ)
    (font : FontKey) (fontSize x y : ℚ) (color : PdfColor)
    (config : PlaceholderConfig) (text : List Char) : List DrawOp :=
  let ls := wrapTextW (fw font fontSize) text config.maxWidth
  let lineSpacing := fontSize * config.lineHeight
  ls.enum.map (fun p =>
    let lineY := y - (p.1 : ℚ) * lineSpacing
    if config.centered then
      .text pageIndex p.2 (PAGE_WIDTH/2 - (fw font fontSize p.2)/2) lineY fontSize
        font color
    else
      .text pageIndex p.2 x lineY fontSize font color)

/-- One iteration of the Phase B draw loop for a recorded position:
page-specific skips, missing replacement/config skips, right-aligned
score fields, the page-5 dynamic inner card, and the
multiline/centered/plain text draws. -/
def opsFor (fw : FontKey → ℚ → List Char → ℚ)
    (repl : List Char → Option (List Char)) (pos : PlaceholderPosition) :
    List DrawOp :=
  if pos.pageIndex = 6 ∧ (pos.key = tokBusinessName ∨ pos.key = tokPrimaryFocusArea) then []
  else if pos.pageIndex = 3 ∧
      (pos.key = tokLowestPillarName ∨ pos.key = tokLowestPillarImpact) then []
  else
    match repl pos.key with
    | none => []
    | some rawValue =>
      let value := drawnValue rawValue pos.suffix
      match PLACEHOLDER_CONFIG pos.key with
      | none => []
      | some config =>
        if pos.key = tokTotalScore ∧ pos.pageIndex = 1 then []
        else if endsWithList "_Score\x7d\x7d".toList pos.key then
          [.text pos.pageIndex value (530 - fw pos.fontKey pos.fontSize value)
            pos.y pos.fontSize pos.fontKey pos.color]
        else
          let cardAndXY :=
            if pos.key = tokSegmentDescription ∧ pos.pageIndex = 4 then
              let descLines := wrapTextW (fw pos.fontKey pos.fontSize) rawValue
                config.maxWidth
              let lineSpacing := pos.fontSize * config.lineHeight
              let textHeight := ((descLines.length : ℚ) - 1) * lineSpacing + pos.fontSize
              let innerLeft : ℚ := 847/10
              let innerRight : ℚ := 5106/10
              let innerTop : ℚ := 5974/10
              let textStartY := innerTop - 25
              let innerBottom := textStartY - textHeight - 20
              ([DrawOp.rect pos.pageIndex innerLeft innerBottom
                  (innerRight - innerLeft) (innerTop - innerBottom)
                  (.cmykColor (874/1000) (526/1000) 0 0) (12/100),
                DrawOp.rect pos.pageIndex (959/10) (innerBottom + 10) (1548/1000)
                  (innerTop - innerBottom - 20)
                  (.cmykColor (877/1000) (533/1000) 0 0) 1],
               ((115 : ℚ), textStartY))
            else ([], (pos.x, pos.y))
          cardAndXY.1 ++
            (if config.multiline then
              drawMultilineOps fw pos.pageIndex pos.fontKey pos.fontSize
                cardAndXY.2.1 cardAndXY.2.2 pos.color config value
            else if config.centered then
              [.text pos.pageIndex value
                (PAGE_WIDTH/2 - (fw pos.fontKey pos.fontSize value)/2)
                cardAndXY.2.2 pos.fontSize pos.fontKey pos.color]
            else
              [.text pos.pageIndex value cardAndXY.2.1 cardAndXY.2.2 pos.fontSize
                pos.fontKey pos.color])

/-- The Phase B loop over all recorded positions. -/
def drawPositions (fw : FontKey → ℚ → List Char → ℚ)
    (repl : List Char → Option (List Char))
    (positions : List PlaceholderPosition) : List DrawOp :=
  (positions.map (opsFor fw repl)).flatten

/-! ### getLowestPillar (Object.entries order + stable sort by score) -/

/-- `Object.entries(scores)`: insertion order of the `PillarScores` literal. -/
def pillarEntries (s : PillarScores) : List (PillarKey × ℚ) :=
  [(.visibility, s.visibility), (.conversion, s.conversion),
   (.reputation, s.reputation), (.marketing, s.marketing),
   (.tracking, s.tracking)]

/-- Stable insertion step for sorting by score ascending. -/
def insPair (x : PillarKey × ℚ) : List (PillarKey × ℚ) → List (PillarKey × ℚ)
  | [] => [x]
  | y :: ys => if x.2 ≤ y.2 then x :: y :: ys else y :: insPair x ys

/-- Stable sort by score ascending: the JS `entries.sort((a, b) => a[1] - b[1])`
(Array.prototype.sort is stable). -/
def sortEntries : List (PillarKey × ℚ) → List (PillarKey × ℚ)
  | [] => []
  | x :: xs => insPair x (sortEntries xs)

/-- `getLowestPillar(scores)`: sort entries by score and take the first key. -/
def getLowestPillar (s : PillarScores) : PillarKey :=
  match sortEntries (pillarEntries s) with
  | [] => .visibility
  | e :: _ => e.1

/-- Score of one pillar. -/
def pillarScore (s : PillarScores) : PillarKey → ℚ
  | .visibility => s.visibility
  | .conversion => s.conversion
  | .reputation => s.reputation
  | .marketing => s.marketing
  | .tracking => s.tracking

/-- Specification side: the earliest pillar, in the record's key enumeration
order, whose score is less than or equal to every other pillar's score. -/
def lowestPillarSpec (s : PillarScores) : PillarKey :=
  if s.visibility ≤ s.conversion ∧ s.visibility ≤ s.reputation ∧
      s.visibility ≤ s.marketing ∧ s.visibility ≤ s.tracking then .visibility
  else if s.conversion ≤ s.visibility ∧ s.conversion ≤ s.reputation ∧
      s.conversion ≤ s.marketing ∧ s.conversion ≤ s.tracking then .conversion
  else if s.reputation ≤ s.visibility ∧ s.reputation ≤ s.conversion ∧
      s.reputation ≤ s.marketing ∧ s.reputation ≤ s.tracking then .reputation
  else if s.marketing ≤ s.visibility ∧ s.marketing ≤ s.conversion ∧
      s.marketing ≤ s.reputation ∧ s.marketing ≤ s.tracking then .marketing
  else .tracking

end Scorecard

namespace Scorecard

/-! ### Theorems -/

/-- **C5** Tier boundary exactness: score 75 maps to `growth_ready`, 76 to
`market_leader`; for every integer score, `getTier` returns `at_risk` iff
score ≤ 30, `needs_improvement` iff 31 ≤ score ≤ 55, `growth_ready` iff
56 ≤ score ≤ 75, `market_leader` otherwise; and for scores in 0..100 the
result's tier-table bracket (`scoreMin`/`scoreMax`) contains the score. -/
theorem getTier_boundaries :
    getTier 75 = .growth_ready ∧ getTier 76 = .market_leader ∧
    (∀ s : ℤ,
      (getTier (s : ℚ) = .at_risk ↔ s ≤ 30) ∧
      (getTier (s : ℚ) = .needs_improvement ↔ 31 ≤ s ∧ s ≤ 55) ∧
      (getTier (s : ℚ) = .growth_ready ↔ 56 ≤ s ∧ s ≤ 75) ∧
      (getTier (s : ℚ) = .market_leader ↔ ¬ (s ≤ 75))) ∧
    (∀ s : ℤ, 0 ≤ s → s ≤ 100 →
      tierScoreMin (getTier (s : ℚ)) ≤ (s : ℚ) ∧
      (s : ℚ) ≤ tierScoreMax (getTier (s : ℚ))) := by
  refine ⟨by norm_num [getTier], by norm_num [getTier], ?_, ?_⟩
  · intro s
    have h30 : ((s : ℚ) ≤ 30) ↔ (s ≤ 30) := by exact_mod_cast Iff.rfl
    have h55 : ((s : ℚ) ≤ 55) ↔ (s ≤ 55) := by exact_mod_cast Iff.rfl
    have h75 : ((s : ℚ) ≤ 75) ↔ (s ≤ 75) := by exact_mod_cast Iff.rfl
    simp only [getTier]
    split_ifs with h1 h2 h3 <;>
      refine ⟨?_, ?_, ?_, ?_⟩ <;>
      simp_all <;> omega
  · intro s h0 h100
    simp only [getTier]
    split_ifs with h1 h2 h3
    · exact ⟨by simpa [tierScoreMin] using (by exact_mod_cast h0 : (0:ℚ) ≤ s),
             by simpa [tierScoreMax] using h1⟩
    · have h1' : ¬ s ≤ 30 := fun h => h1 (by exact_mod_cast h)
      exact ⟨by simp only [tierScoreMin]; exact_mod_cast (by omega : (31:ℤ) ≤ s),
             by simpa [tierScoreMax] using h2⟩
    · have h2' : ¬ s ≤ 55 := fun h => h2 (by exact_mod_cast h)
      exact ⟨by simp only [tierScoreMin]; exact_mod_cast (by omega : (56:ℤ) ≤ s),
             by simpa [tierScoreMax] using h3⟩
    · have h3' : ¬ s ≤ 75 := fun h => h3 (by exact_mod_cast h)
      exact ⟨by simp only [tierScoreMin]; exact_mod_cast (by omega : (76:ℤ) ≤ s),
             by simpa [tierScoreMax] using (by exact_mod_cast h100 : (s:ℚ) ≤ 100)⟩

/-- Witness for C5: instantiate the quantified parts at s = 75. -/
theorem getTier_boundaries_witness :
    getTier ((75 : ℤ) : ℚ) = .growth_ready ∧
    tierScoreMin (getTier ((75 : ℤ) : ℚ)) ≤ ((75 : ℤ) : ℚ) := by
  have h := getTier_boundaries
  exact ⟨(h.2.2.1 75).2.2.1.mpr (by norm_num),
         (h.2.2.2 75 (by norm_num) (by norm_num)).1⟩

/-- **C8** Pillar dot opacity mapping: opacity is 1.0 for score ≥ 16, 0.75 for
11 ≤ score < 16, 0.5 otherwise; in particular 16 → 1, 15 → 0.75, 10 → 0.5. -/
theorem getScoreOpacity_buckets :
    (∀ score : ℚ,
      (16 ≤ score → getScoreOpacity score = 1) ∧
      (11 ≤ score → score < 16 → getScoreOpacity score = 3/4) ∧
      (score < 11 → getScoreOpacity score = 1/2)) ∧
    getScoreOpacity 16 = 1 ∧ getScoreOpacity 15 = 3/4 ∧
    getScoreOpacity 10 = 1/2 := by
  refine ⟨?_, by norm_num [getScoreOpacity], by norm_num [getScoreOpacity],
    by norm_num [getScoreOpacity]⟩
  intro score
  refine ⟨?_, ?_, ?_⟩ <;> intros <;>
    simp only [getScoreOpacity] <;> split_ifs <;> first | rfl | linarith

/-- Witness for C8: instantiate the quantified part at score = 15. -/
theorem getScoreOpacity_buckets_witness :
    getScoreOpacity 15 = 3/4 :=
  (getScoreOpacity_buckets.1 15).2.1 (by norm_num) (by norm_num)

/-! ### Lemmas about splitSp / joinSp / wrapAux -/

lemma splitSp_ne_nil (s : List Char) : splitSp s ≠ [] := by
  induction s with
  | nil => simp [splitSp]
  | cons c rest ih =>
    simp only [splitSp]
    split_ifs
    · simp
    · cases h : splitSp rest <;> simp

lemma space_notMem_splitSp (s : List Char) :
    ∀ w ∈ splitSp s, ' ' ∉ w := by
  induction s with
  | nil =>
    intro w hw
    simp [splitSp] at hw
    simp [hw]
  | cons c rest ih =>
    intro w hw
    simp only [splitSp] at hw
    split_ifs at hw with hc
    · rcases List.mem_cons.1 hw with h | h
      · simp [h]
      · exact ih w h
    · rcases hsp : splitSp rest with _ | ⟨w', ws⟩
      · exact absurd hsp (splitSp_ne_nil rest)
      · rw [hsp] at hw
        rcases List.mem_cons.1 hw with h | h
        · subst h
          intro hmem
          rcases List.mem_cons.1 hmem with h' | h'
          · exact hc h'.symm
          · exact ih w' (hsp ▸ List.mem_cons_self _ _) h'
        · exact ih w (hsp ▸ List.mem_cons_of_mem _ h)

lemma splitSp_append_space (a b : List Char) :
    splitSp (a ++ ' ' :: b) = splitSp a ++ splitSp b := by
  induction a with
  | nil => simp [splitSp]
  | cons c a' ih =>
    simp only [List.cons_append, splitSp, List.append_eq]
    split_ifs with hc
    · rw [ih]
      simp
    · rcases hsp : splitSp a' with _ | ⟨w, ws⟩
      · exact absurd hsp (splitSp_ne_nil a')
      · rw [ih, hsp]
        simp

lemma splitSp_spaceFree (w : List Char) (h : ' ' ∉ w) : splitSp w = [w] := by
  induction w with
  | nil => simp [splitSp]
  | cons c w' ih =>
    simp only [splitSp]
    rw [if_neg (by intro hc; exact h (hc ▸ List.mem_cons_self _ _)),
        ih (fun hm => h (List.mem_cons_of_mem _ hm))]

lemma nonEmptyWords_nil : nonEmptyWords [] = [] := by decide

lemma nonEmptyWords_append_space (a b : List Char) :
    nonEmptyWords (a ++ ' ' :: b) = nonEmptyWords a ++ nonEmptyWords b := by
  simp only [nonEmptyWords]
  rw [splitSp_append_space, List.filter_append]

lemma nonEmptyWords_spaceFree (w : List Char) (h : ' ' ∉ w) :
    nonEmptyWords w = if w = [] then [] else [w] := by
  simp only [nonEmptyWords, splitSp_spaceFree w h]
  rcases w with _ | ⟨c, w'⟩ <;> simp [List.filter]

lemma joinSp_singleton (l : List Char) : joinSp [l] = l := rfl

lemma joinSp_cons_cons (l l' : List Char) (ls : List (List Char)) :
    joinSp (l :: l' :: ls) = l ++ ' ' :: joinSp (l' :: ls) := rfl

lemma nonEmptyWords_joinSp_append_singleton (ls : List (List Char)) (cur : List Char) :
    nonEmptyWords (joinSp (ls ++ [cur])) =
      nonEmptyWords (joinSp ls) ++ nonEmptyWords cur := by
  induction ls with
  | nil => simp [joinSp, nonEmptyWords_nil]
  | cons l ls' ih =>
    rcases ls' with _ | ⟨l', ls''⟩
    · show nonEmptyWords (joinSp [l, cur]) =
        nonEmptyWords (joinSp [l]) ++ nonEmptyWords cur
      rw [joinSp_cons_cons, joinSp_singleton, joinSp_singleton,
        nonEmptyWords_append_space]
    · show nonEmptyWords (joinSp (l :: l' :: (ls'' ++ [cur]))) =
        nonEmptyWords (joinSp (l :: l' :: ls'')) ++ nonEmptyWords cur
      have ih' : nonEmptyWords (joinSp (l' :: (ls'' ++ [cur]))) =
          nonEmptyWords (joinSp (l' :: ls'')) ++ nonEmptyWords cur := ih
      rw [joinSp_cons_cons l l' (ls'' ++ [cur]), nonEmptyWords_append_space, ih',
        joinSp_cons_cons l l' ls'', nonEmptyWords_append_space, List.append_assoc]

lemma wrapAux_coverage (width : List Char → ℚ) (maxW : ℚ) :
    ∀ (words : List (List Char)) (lines : List (List Char)) (cur : List Char),
      (∀ w ∈ words, ' ' ∉ w) →
      nonEmptyWords (joinSp (wrapAux width maxW words lines cur)) =
        nonEmptyWords (joinSp lines) ++ nonEmptyWords cur ++
          words.filter (fun w => !w.isEmpty) := by
  intro words
  induction words with
  | nil =>
    intro lines cur _
    simp only [wrapAux, List.filter_nil, List.append_nil]
    split_ifs with hcur
    · simp [hcur, nonEmptyWords_nil]
    · rw [nonEmptyWords_joinSp_append_singleton]
  | cons word words ih =>
    intro lines cur hwf
    have hword : ' ' ∉ word := hwf word (List.mem_cons_self _ _)
    have hwords : ∀ w ∈ words, ' ' ∉ w := fun w hw => hwf w (List.mem_cons_of_mem _ hw)
    have hfil : List.filter (fun w => !w.isEmpty) (word :: words) =
        (if word = [] then [] else [word]) ++ List.filter (fun w => !w.isEmpty) words := by
      rcases word with _ | ⟨c, w'⟩ <;> simp [List.filter]
    by_cases hcur : cur = []
    · subst hcur
      have hstep : wrapAux width maxW (word :: words) lines [] =
          wrapAux width maxW words lines word := by
        simp [wrapAux]
      rw [hstep, ih _ _ hwords, nonEmptyWords_spaceFree word hword, hfil,
        nonEmptyWords_nil]
      simp [List.append_assoc]
    · by_cases hov : maxW < width (cur ++ ' ' :: word)
      · have hstep : wrapAux width maxW (word :: words) lines cur =
            wrapAux width maxW words (lines ++ [cur]) word := by
          simp only [wrapAux, if_neg hcur]
          rw [if_pos ⟨hov, hcur⟩]
        rw [hstep, ih _ _ hwords, nonEmptyWords_joinSp_append_singleton,
          nonEmptyWords_spaceFree word hword, hfil]
        simp [List.append_assoc]
      · have hstep : wrapAux width maxW (word :: words) lines cur =
            wrapAux width maxW words lines (cur ++ ' ' :: word) := by
          simp only [wrapAux, if_neg hcur]
          rw [if_neg (fun h => hov h.1)]
        rw [hstep, ih _ _ hwords, nonEmptyWords_append_space,
          nonEmptyWords_spaceFree word hword, hfil]
        simp [List.append_assoc]

/-- **C6** Width monotonicity: appending a non-empty string never decreases
`calculateTextWidth`, for metrics-table fonts and for the unknown-font
heuristic alike (non-negative font size). -/
theorem calculateTextWidth_monotone (a b : List Char) (fontName : String)
    (fontSize : ℚ) (hs : 0 ≤ fontSize) (hb : b ≠ []) :
    calculateTextWidth a fontName fontSize ≤
      calculateTextWidth (a ++ b) fontName fontSize := by
  clear hb
  simp only [calculateTextWidth]
  rcases FONT_METRICS fontName with _ | m
  · have hlen : ((a.length : ℚ)) ≤ ((a ++ b).length : ℚ) := by
      rw [List.length_append]
      exact_mod_cast Nat.le_add_right _ _
    have h2 : (0:ℚ) ≤ 1/2 := by norm_num
    calc (a.length : ℚ) * (1/2) * fontSize
        ≤ ((a ++ b).length : ℚ) * (1/2) * fontSize := by
          apply mul_le_mul_of_nonneg_right _ hs
          exact mul_le_mul_of_nonneg_right hlen h2
      _ = _ := rfl
  · have hsum : ((a.map (charAdvance m)).sum : ℚ) ≤
        (((a ++ b).map (charAdvance m)).sum : ℚ) := by
      rw [List.map_append, List.sum_append]
      exact_mod_cast Nat.le_add_right _ _
    apply mul_le_mul_of_nonneg_right _ hs
    apply div_le_div_of_nonneg_right hsum (by norm_num)

/-- Witness for C6 at a = "ab", b = "c", font "Roboto-Bold", size 12. -/
theorem calculateTextWidth_monotone_witness :
    ((0:ℚ) ≤ 12 ∧ (['c'] : List Char) ≠ []) ∧
      calculateTextWidth ['a', 'b'] "Roboto-Bold" 12 ≤
        calculateTextWidth (['a', 'b'] ++ ['c']) "Roboto-Bold" 12 :=
  ⟨⟨by norm_num, by simp⟩,
   calculateTextWidth_monotone ['a', 'b'] ['c'] "Roboto-Bold" 12
     (by norm_num) (by simp)⟩

/-- **C7** Wrap coverage: the lines returned by word-wrapping, joined by
single spaces, have exactly the original space-delimited word sequence —
stated for an arbitrary width function (covering the pdf.service variant)
and for the metrics-module `wrapText`. -/
theorem wrapText_coverage :
    (∀ (width : List Char → ℚ) (text : List Char) (maxWidth : ℚ),
      nonEmptyWords (joinSp (wrapTextW width text maxWidth)) = nonEmptyWords text) ∧
    (∀ (text : List Char) (fontName : String) (fontSize maxWidthPt : ℚ),
      nonEmptyWords (joinSp (wrapText text fontName fontSize maxWidthPt)) =
        nonEmptyWords text) := by
  have main : ∀ (width : List Char → ℚ) (text : List Char) (maxWidth : ℚ),
      nonEmptyWords (joinSp (wrapTextW width text maxWidth)) = nonEmptyWords text := by
    intro width text maxWidth
    unfold wrapTextW
    rw [wrapAux_coverage width maxWidth (splitSp text) [] []
      (space_notMem_splitSp text)]
    show nonEmptyWords (joinSp []) ++ nonEmptyWords [] ++ _ = _
    rw [joinSp, nonEmptyWords_nil]
    rfl
  exact ⟨main, fun text fontName fontSize maxWidthPt =>
    main (fun cand => calculateTextWidth cand fontName fontSize) text maxWidthPt⟩

/-! ### Lemmas about extractTJText on rendered TJ arrays -/

lemma extractAux_skip (t rest : List Char) (h : ∀ c ∈ t, c ≠ '(') :
    extractAux (t ++ rest) none = extractAux rest none := by
  induction t with
  | nil => rfl
  | cons c t' ih =>
    have hc : c ≠ '(' := h c (List.mem_cons_self _ _)
    simp only [List.cons_append, extractAux, if_neg hc]
    exact ih (fun d hd => h d (List.mem_cons_of_mem _ hd))

lemma extractAux_group (s rest acc : List Char) (h : ')' ∉ s) :
    extractAux (s ++ ')' :: rest) (some acc) =
      acc.reverse ++ s ++ extractAux rest none := by
  induction s generalizing acc with
  | nil => simp [extractAux]
  | cons c s' ih =>
    have hc : c ≠ ')' := fun he => h (he ▸ List.mem_cons_self _ _)
    simp only [List.cons_append, extractAux, if_neg hc, List.append_eq]
    rw [ih (c :: acc) (fun hm => h (List.mem_cons_of_mem _ hm))]
    simp

lemma renderTJ_cons (it : TJItem) (rest : List TJItem) :
    renderTJ (it :: rest) = it.render ++ renderTJ rest := by
  simp [renderTJ]

lemma extractTJText_renderTJ (items : List TJItem) (hwf : ∀ it ∈ items, it.wf) :
    extractTJText (renderTJ items) = stringsOf items := by
  induction items with
  | nil => rfl
  | cons it rest ih =>
    have hit := hwf it (List.mem_cons_self _ _)
    have hrest : ∀ x ∈ rest, x.wf := fun x hx => hwf x (List.mem_cons_of_mem _ hx)
    cases it with
    | str s =>
      have hs : ')' ∉ s := hit
      have hre : renderTJ (TJItem.str s :: rest) =
          '(' :: (s ++ ')' :: renderTJ rest) := by
        rw [renderTJ_cons]
        simp [TJItem.render]
      have hstr : stringsOf (TJItem.str s :: rest) = s ++ stringsOf rest := by
        simp [stringsOf]
      rw [hre, hstr]
      show extractAux ('(' :: (s ++ ')' :: renderTJ rest)) none = s ++ stringsOf rest
      rw [show extractAux ('(' :: (s ++ ')' :: renderTJ rest)) none =
          extractAux (s ++ ')' :: renderTJ rest) (some []) from rfl]
      rw [extractAux_group _ _ _ hs]
      simp only [List.reverse_nil, List.nil_append]
      rw [show extractAux (renderTJ rest) none = extractTJText (renderTJ rest) from rfl,
        ih hrest]
    | num t =>
      have hn : ∀ c ∈ t, c ≠ '(' := by
        intro c hc heq
        rcases hit c hc with h | h
        · rw [heq] at h
          exact absurd h (by decide)
        · rw [heq] at h
          exact absurd h (by decide)
      have hre : renderTJ (TJItem.num t :: rest) = t ++ renderTJ rest := by
        rw [renderTJ_cons]; rfl
      have hstr : stringsOf (TJItem.num t :: rest) = stringsOf rest := by
        simp [stringsOf]
      rw [hre, hstr]
      show extractAux (t ++ renderTJ rest) none = stringsOf rest
      rw [extractAux_skip _ _ hn]
      exact ih hrest

/-- **C1** Fragmentation invariance: the text extracted from a TJ
show-array equals the concatenation of its string literals alone (numeric
kerning values discarded), so `findPlaceholder` gives the same result on
any two fragmentations of the same concatenated text. -/
theorem tj_fragmentation_invariance :
    (∀ items : List TJItem, (∀ it ∈ items, it.wf) →
      extractTJText (renderTJ items) = stringsOf items) ∧
    (∀ items1 items2 : List TJItem,
      (∀ it ∈ items1, it.wf) → (∀ it ∈ items2, it.wf) →
      stringsOf items1 = stringsOf items2 →
      findPlaceholder (extractTJText (renderTJ items1)) =
        findPlaceholder (extractTJText (renderTJ items2))) := by
  refine ⟨extractTJText_renderTJ, ?_⟩
  intro i1 i2 h1 h2 he
  rw [extractTJText_renderTJ i1 h1, extractTJText_renderTJ i2 h2, he]

/-- Witness for C1: `[({{Total_)-24(Score}})]` versus `[({{Total_Score}})]`. -/
theorem tj_fragmentation_invariance_witness :
    (∀ it ∈ [TJItem.str ("\x7b\x7bTotal_".toList),
        TJItem.num ("-24".toList), TJItem.str ("Score\x7d\x7d".toList)], it.wf) ∧
    (∀ it ∈ [TJItem.str ("\x7b\x7bTotal_Score\x7d\x7d".toList)], it.wf) ∧
    findPlaceholder (extractTJText (renderTJ
      [TJItem.str ("\x7b\x7bTotal_".toList), TJItem.num ("-24".toList),
       TJItem.str ("Score\x7d\x7d".toList)])) =
      findPlaceholder (extractTJText (renderTJ
        [TJItem.str ("\x7b\x7bTotal_Score\x7d\x7d".toList)])) :=
  ⟨by decide, by decide,
   tj_fragmentation_invariance.2 _ _ (by decide) (by decide) (by decide)⟩

/-! ### Lemmas about the stable sort of getLowestPillar -/

lemma mem_insPair {y x : PillarKey × ℚ} {l : List (PillarKey × ℚ)} :
    y ∈ insPair x l ↔ y = x ∨ y ∈ l := by
  induction l with
  | nil => simp [insPair]
  | cons z zs ih =>
    simp only [insPair]
    split_ifs
    · simp only [List.mem_cons]
    · simp only [List.mem_cons, ih]
      tauto

lemma mem_sortEntries {y : PillarKey × ℚ} {l : List (PillarKey × ℚ)} :
    y ∈ sortEntries l ↔ y ∈ l := by
  induction l with
  | nil => simp [sortEntries]
  | cons z zs ih => simp [sortEntries, mem_insPair, ih]

lemma sortEntries_head (l1 l2 : List (PillarKey × ℚ)) (m : PillarKey × ℚ)
    (h1 : ∀ y ∈ l1, m.2 < y.2) (h2 : ∀ y ∈ l2, m.2 ≤ y.2) :
    ∃ t, sortEntries (l1 ++ m :: l2) = m :: t := by
  induction l1 with
  | nil =>
    simp only [List.nil_append, sortEntries]
    cases hs : sortEntries l2 with
    | nil => exact ⟨[], by simp [insPair]⟩
    | cons y ys =>
      have hy : y ∈ l2 := mem_sortEntries.1 (hs ▸ List.mem_cons_self _ _)
      exact ⟨y :: ys, by simp [insPair, h2 y hy]⟩
  | cons a l1' ih =>
    obtain ⟨t, ht⟩ := ih (fun y hy => h1 y (List.mem_cons_of_mem _ hy))
    have ha : m.2 < a.2 := h1 a (List.mem_cons_self _ _)
    exact ⟨insPair a t, by
      simp only [List.cons_append, sortEntries, List.append_eq, ht, insPair,
        if_neg (not_le.mpr ha)]⟩

lemma getLowestPillar_of_decomp (s : PillarScores)
    (l1 l2 : List (PillarKey × ℚ)) (m : PillarKey × ℚ)
    (hdec : pillarEntries s = l1 ++ m :: l2)
    (h1 : ∀ y ∈ l1, m.2 < y.2) (h2 : ∀ y ∈ l2, m.2 ≤ y.2) :
    getLowestPillar s = m.1 := by
  obtain ⟨t, ht⟩ := sortEntries_head l1 l2 m h1 h2
  unfold getLowestPillar
  rw [hdec, ht]

/-- **C10** Lowest-pillar selection: `getLowestPillar` returns a pillar key
whose score is ≤ every pillar's score, and on ties the pillar occurring
earliest in the record's key enumeration order (visibility, conversion,
reputation, marketing, tracking), the sort being stable. -/
theorem getLowestPillar_spec (s : PillarScores) :
    getLowestPillar s = lowestPillarSpec s ∧
    (∀ k : PillarKey, pillarScore s (getLowestPillar s) ≤ pillarScore s k) := by
  obtain ⟨v, c, r, mk, tr⟩ := s
  unfold lowestPillarSpec
  split_ifs with h1 h2 h3 h4
  · have hlow : getLowestPillar ⟨v, c, r, mk, tr⟩ = .visibility :=
      getLowestPillar_of_decomp _ []
        [(.conversion, c), (.reputation, r), (.marketing, mk), (.tracking, tr)]
        (.visibility, v) rfl
        (fun y hy => absurd hy (List.not_mem_nil y))
        (by
          intro y hy
          simp only [List.mem_cons, List.not_mem_nil, or_false] at hy
          rcases hy with rfl | rfl | rfl | rfl
          exacts [h1.1, h1.2.1, h1.2.2.1, h1.2.2.2])
    refine ⟨hlow, ?_⟩
    intro k
    rw [hlow]
    cases k
    exacts [le_refl v, h1.1, h1.2.1, h1.2.2.1, h1.2.2.2]
  · have hcv : c < v := by
      by_contra hle
      push_neg at hle
      exact h1 ⟨hle, le_trans hle h2.2.1, le_trans hle h2.2.2.1,
        le_trans hle h2.2.2.2⟩
    have hlow : getLowestPillar ⟨v, c, r, mk, tr⟩ = .conversion :=
      getLowestPillar_of_decomp _ [(.visibility, v)]
        [(.reputation, r), (.marketing, mk), (.tracking, tr)]
        (.conversion, c) rfl
        (by
          intro y hy
          simp only [List.mem_cons, List.not_mem_nil, or_false] at hy
          rcases hy with rfl
          exact hcv)
        (by
          intro y hy
          simp only [List.mem_cons, List.not_mem_nil, or_false] at hy
          rcases hy with rfl | rfl | rfl
          exacts [h2.2.1, h2.2.2.1, h2.2.2.2])
    refine ⟨hlow, ?_⟩
    intro k
    rw [hlow]
    cases k
    exacts [h2.1, le_refl c, h2.2.1, h2.2.2.1, h2.2.2.2]
  · have hrv : r < v := by
      by_contra hle
      push_neg at hle
      exact h1 ⟨le_trans hle h3.2.1, hle, le_trans hle h3.2.2.1,
        le_trans hle h3.2.2.2⟩
    have hrc : r < c := by
      by_contra hle
      push_neg at hle
      exact h2 ⟨le_trans hle h3.1, hle, le_trans hle h3.2.2.1,
        le_trans hle h3.2.2.2⟩
    have hlow : getLowestPillar ⟨v, c, r, mk, tr⟩ = .reputation :=
      getLowestPillar_of_decomp _ [(.visibility, v), (.conversion, c)]
        [(.marketing, mk), (.tracking, tr)] (.reputation, r) rfl
        (by
          intro y hy
          simp only [List.mem_cons, List.not_mem_nil, or_false] at hy
          rcases hy with rfl | rfl
          exacts [hrv, hrc])
        (by
          intro y hy
          simp only [List.mem_cons, List.not_mem_nil, or_false] at hy
          rcases hy with rfl | rfl
          exacts [h3.2.2.1, h3.2.2.2])
    refine ⟨hlow, ?_⟩
    intro k
    rw [hlow]
    cases k
    exacts [h3.1, h3.2.1, le_refl r, h3.2.2.1, h3.2.2.2]
  · have hmv : mk < v := by
      by_contra hle
      push_neg at hle
      exact h1 ⟨le_trans hle h4.2.1, le_trans hle h4.2.2.1, hle,
        le_trans hle h4.2.2.2⟩
    have hmc : mk < c := by
      by_contra hle
      push_neg at hle
      exact h2 ⟨le_trans hle h4.1, le_trans hle h4.2.2.1, hle,
        le_trans hle h4.2.2.2⟩
    have hmr : mk < r := by
      by_contra hle
      push_neg at hle
      exact h3 ⟨le_trans hle h4.1, le_trans hle h4.2.1, hle,
        le_trans hle h4.2.2.2⟩
    have hlow : getLowestPillar ⟨v, c, r, mk, tr⟩ = .marketing :=
      getLowestPillar_of_decomp _
        [(.visibility, v), (.conversion, c), (.reputation, r)]
        [(.tracking, tr)] (.marketing, mk) rfl
        (by
          intro y hy
          simp only [List.mem_cons, List.not_mem_nil, or_false] at hy
          rcases hy with rfl | rfl | rfl
          exacts [hmv, hmc, hmr])
        (by
          intro y hy
          simp only [List.mem_cons, List.not_mem_nil, or_false] at hy
          rcases hy with rfl
          exact h4.2.2.2)
    refine ⟨hlow, ?_⟩
    intro k
    rw [hlow]
    cases k
    exacts [h4.1, h4.2.1, h4.2.2.1, le_refl mk, h4.2.2.2]
  · have hμv : min v (min c (min r (min mk tr))) ≤ v := min_le_left _ _
    have hμc : min v (min c (min r (min mk tr))) ≤ c :=
      le_trans (min_le_right _ _) (min_le_left _ _)
    have hμr : min v (min c (min r (min mk tr))) ≤ r :=
      le_trans (min_le_right _ _) (le_trans (min_le_right _ _) (min_le_left _ _))
    have hμm : min v (min c (min r (min mk tr))) ≤ mk :=
      le_trans (min_le_right _ _) (le_trans (min_le_right _ _)
        (le_trans (min_le_right _ _) (min_le_left _ _)))
    have hμt : min v (min c (min r (min mk tr))) ≤ tr :=
      le_trans (min_le_right _ _) (le_trans (min_le_right _ _)
        (le_trans (min_le_right _ _) (min_le_right _ _)))
    have hatt : min v (min c (min r (min mk tr))) = v ∨
        min v (min c (min r (min mk tr))) = c ∨
        min v (min c (min r (min mk tr))) = r ∨
        min v (min c (min r (min mk tr))) = mk ∨
        min v (min c (min r (min mk tr))) = tr := by
      rcases min_choice v (min c (min r (min mk tr))) with h | h
      · exact Or.inl h
      rcases min_choice c (min r (min mk tr)) with h' | h'
      · exact Or.inr (Or.inl (h.trans h'))
      rcases min_choice r (min mk tr) with h'' | h''
      · exact Or.inr (Or.inr (Or.inl ((h.trans h').trans h'')))
      rcases min_choice mk tr with h''' | h'''
      · exact Or.inr (Or.inr (Or.inr (Or.inl (((h.trans h').trans h'').trans h'''))))
      · exact Or.inr (Or.inr (Or.inr (Or.inr (((h.trans h').trans h'').trans h'''))))
    have htle : tr ≤ v ∧ tr ≤ c ∧ tr ≤ r ∧ tr ≤ mk := by
      rcases hatt with h | h | h | h | h
      · exact absurd ⟨h ▸ hμc, h ▸ hμr, h ▸ hμm, h ▸ hμt⟩ h1
      · exact absurd ⟨h ▸ hμv, h ▸ hμr, h ▸ hμm, h ▸ hμt⟩ h2
      · exact absurd ⟨h ▸ hμv, h ▸ hμc, h ▸ hμm, h ▸ hμt⟩ h3
      · exact absurd ⟨h ▸ hμv, h ▸ hμc, h ▸ hμr, h ▸ hμt⟩ h4
      · exact ⟨h ▸ hμv, h ▸ hμc, h ▸ hμr, h ▸ hμm⟩
    have htv : tr < v := by
      by_contra hle
      push_neg at hle
      exact h1 ⟨le_trans hle htle.2.1, le_trans hle htle.2.2.1,
        le_trans hle htle.2.2.2, hle⟩
    have htc : tr < c := by
      by_contra hle
      push_neg at hle
      exact h2 ⟨le_trans hle htle.1, le_trans hle htle.2.2.1,
        le_trans hle htle.2.2.2, hle⟩
    have htr2 : tr < r := by
      by_contra hle
      push_neg at hle
      exact h3 ⟨le_trans hle htle.1, le_trans hle htle.2.1,
        le_trans hle htle.2.2.2, hle⟩
    have htm : tr < mk := by
      by_contra hle
      push_neg at hle
      exact h4 ⟨le_trans hle htle.1, le_trans hle htle.2.1,
        le_trans hle htle.2.2.1, hle⟩
    have hlow : getLowestPillar ⟨v, c, r, mk, tr⟩ = .tracking :=
      getLowestPillar_of_decomp _
        [(.visibility, v), (.conversion, c), (.reputation, r), (.marketing, mk)]
        [] (.tracking, tr) rfl
        (by
          intro y hy
          simp only [List.mem_cons, List.not_mem_nil, or_false] at hy
          rcases hy with rfl | rfl | rfl | rfl
          exacts [htv, htc, htr2, htm])
        (fun y hy => absurd hy (List.not_mem_nil y))
    refine ⟨hlow, ?_⟩
    intro k
    rw [hlow]
    cases k
    exacts [htle.1, htle.2.1, htle.2.2.1, htle.2.2.2, le_refl tr]

/-- **C2** Suffix preservation: the blank pass records exactly the
characters following the matched token's end as the suffix, and the draw
pass renders the replacement value immediately followed by that suffix;
concretely, the stream line `[({{Visibility_Score}}/20)] TJ` records suffix
"/20", and replacement "15" renders as "15/20". -/
theorem suffix_preservation :
    (∀ (key text trail : List Char) (i : ℕ),
      indexOfSub key text = some i → text.drop i = key ++ trail →
      suffixAfter key text = trail ∧
      ∀ repl, drawnValue repl (suffixAfter key text) = repl ++ trail) ∧
    (blankAndRecordPositions
        ("[(\x7b\x7bVisibility_Score\x7d\x7d/20)] TJ".toList) 2
        (fun _ => none)).2.map
      (fun p => (p.key, p.suffix, drawnValue ("15".toList) p.suffix)) =
      [(tokVisibilityScore, "/20".toList, "15/20".toList)] := by
  constructor
  · intro key text trail i hidx hdrop
    have hsuf : suffixAfter key text = trail := by
      unfold suffixAfter
      rw [hidx]
      show List.drop (i + key.length) text = trail
      rw [← List.drop_drop, hdrop, List.drop_left]
    exact ⟨hsuf, fun repl => by rw [hsuf]; rfl⟩
  · decide

/-- Witness for C2: the general part at key "ab", text "xabcd", index 1. -/
theorem suffix_preservation_witness :
    suffixAfter ("ab".toList) ("xabcd".toList) = "cd".toList ∧
    drawnValue ("15".toList) (suffixAfter ("ab".toList) ("xabcd".toList)) =
      "15".toList ++ "cd".toList := by
  have h := suffix_preservation.1 ("ab".toList) ("xabcd".toList) ("cd".toList) 1
    (by decide) (by decide)
  exact ⟨h.1, h.2 ("15".toList)⟩

/-! ### Lemmas for the round-trip of the blank phase -/

lemma splitOnCh_ne_nil (sep : Char) (s : List Char) : splitOnCh sep s ≠ [] := by
  induction s with
  | nil => simp [splitOnCh]
  | cons c rest ih =>
    simp only [splitOnCh]
    split_ifs
    · simp
    · cases h : splitOnCh sep rest <;> simp

lemma joinCh_cons_cons (sep : Char) (l l' : List Char) (ls : List (List Char)) :
    joinCh sep (l :: l' :: ls) = l ++ sep :: joinCh sep (l' :: ls) := rfl

lemma joinCh_splitOnCh (sep : Char) (s : List Char) :
    joinCh sep (splitOnCh sep s) = s := by
  induction s with
  | nil => rfl
  | cons c rest ih =>
    simp only [splitOnCh]
    split_ifs with hc
    · subst hc
      cases h : splitOnCh c rest with
      | nil => exact absurd h (splitOnCh_ne_nil c rest)
      | cons l ls =>
        simp only [joinCh_cons_cons, List.nil_append]
        rw [← h, ih]
    · cases h : splitOnCh sep rest with
      | nil => exact absurd h (splitOnCh_ne_nil sep rest)
      | cons w ws =>
        show joinCh sep ((c :: w) :: ws) = c :: rest
        rw [h] at ih
        cases ws with
        | nil =>
          show c :: w = c :: rest
          rw [show joinCh sep [w] = w from rfl] at ih
          rw [ih]
        | cons x ws2 =>
          rw [joinCh_cons_cons]
          rw [joinCh_cons_cons] at ih
          rw [List.cons_append, ih]

lemma stripPre_recon (p : List Char) :
    ∀ l r, stripPre p l = some r → l = p ++ r := by
  induction p with
  | nil =>
    intro l r h
    simp only [stripPre, Option.some.injEq] at h
    simp [h]
  | cons a p' ih =>
    intro l r h
    cases l with
    | nil => exact absurd h (by simp [stripPre])
    | cons c cs =>
      simp only [stripPre] at h
      split_ifs at h with hac
      rw [← hac, ih cs r h]
      rfl

lemma tjBodyAux_recon (l : List Char) :
    (∀ content r, tjBodyAux l none = some (content, r) →
      l = content ++ ']' :: r) ∧
    (∀ acc content r, tjBodyAux l (some acc) = some (content, r) →
      '(' :: acc.reverse ++ l = content ++ ']' :: r) := by
  induction l with
  | nil =>
    constructor
    · intro content r h
      exact absurd h (by simp [tjBodyAux])
    · intro acc content r h
      exact absurd h (by simp [tjBodyAux])
  | cons c rest ih =>
    constructor
    · intro content r h
      simp only [tjBodyAux] at h
      split_ifs at h with h1 h2 h3
      · have := ih.2 [] content r h
        rw [h1.1]
        simpa using this
      · simp only [Option.some.injEq, Prod.mk.injEq] at h
        rw [h2, ← h.1, ← h.2]
        rfl
      · cases hres : tjBodyAux rest none with
        | none => rw [hres] at h; exact absurd h (by simp)
        | some p =>
          obtain ⟨c1, r1⟩ := p
          rw [hres] at h
          simp only [Option.map_some', Option.some.injEq, Prod.mk.injEq] at h
          rw [← h.1, ← h.2, ih.1 c1 r1 hres]
          rfl
    · intro acc content r h
      simp only [tjBodyAux] at h
      split_ifs at h with h1
      · cases hres : tjBodyAux rest none with
        | none => rw [hres] at h; exact absurd h (by simp)
        | some p =>
          obtain ⟨c1, r1⟩ := p
          rw [hres] at h
          simp only [Option.map_some', Option.some.injEq, Prod.mk.injEq] at h
          rw [← h.1, ← h.2, h1]
          have hr := ih.1 c1 r1 hres
          rw [hr]
          simp
      · have hr := ih.2 (c :: acc) content r h
        rw [← hr]
        simp

lemma devNoteScan_clean (fuel : ℕ) : ∀ s : List Char,
    (∀ c ∈ (devNoteScan fuel s).2, hasDevMarker (extractTJText c) = false) →
    (devNoteScan fuel s).1 = s := by
  induction fuel with
  | zero => intro s _; rfl
  | succ fuel ih =>
    intro s hclean
    cases s with
    | nil => rfl
    | cons c rest =>
      by_cases hc : c = '['
      · subst hc
        cases hb : tjBodyAux rest none with
        | none =>
          have hstep : devNoteScan (fuel + 1) ('[' :: rest) =
              ('[' :: (devNoteScan fuel rest).1, (devNoteScan fuel rest).2) := by
            simp only [devNoteScan, hb, eq_self_iff_true, if_true]
          rw [hstep] at hclean ⊢
          rw [ih rest hclean]
        | some p =>
          obtain ⟨content, r⟩ := p
          cases hs : stripPre ['T', 'J'] (r.dropWhile isWsChar) with
          | none =>
            have hstep : devNoteScan (fuel + 1) ('[' :: rest) =
                ('[' :: (devNoteScan fuel rest).1, (devNoteScan fuel rest).2) := by
              simp only [devNoteScan, hb, hs, eq_self_iff_true, if_true]
            rw [hstep] at hclean ⊢
            rw [ih rest hclean]
          | some r3 =>
            have hstep : devNoteScan (fuel + 1) ('[' :: rest) =
                ((if hasDevMarker (extractTJText content) then blankTjLine
                  else '[' :: content ++ ']' :: (r.takeWhile isWsChar ++ ['T', 'J']))
                    ++ (devNoteScan fuel r3).1,
                 content :: (devNoteScan fuel r3).2) := by
              simp only [devNoteScan, hb, hs, eq_self_iff_true, if_true]
            rw [hstep] at hclean ⊢
            have hcontent : hasDevMarker (extractTJText content) = false :=
              hclean content (List.mem_cons_self _ _)
            have hrest : rest = content ++ ']' :: r :=
              (tjBodyAux_recon rest).1 content r hb
            have hrdec : r = r.takeWhile isWsChar ++ 'T' :: 'J' :: r3 := by
              conv_lhs => rw [← List.takeWhile_append_dropWhile (p := isWsChar) (l := r)]
              rw [stripPre_recon _ _ _ hs]
              rfl
            rw [hcontent, if_neg (by simp)]
            rw [ih r3 (fun x hx => hclean x (List.mem_cons_of_mem _ hx))]
            rw [hrest]
            conv_rhs => rw [hrdec]
            simp
      · have hstep : devNoteScan (fuel + 1) (c :: rest) =
            (c :: (devNoteScan fuel rest).1, (devNoteScan fuel rest).2) := by
          simp only [devNoteScan, if_neg hc]
        rw [hstep] at hclean ⊢
        rw [ih rest hclean]

lemma tjSimpleMatch_none_of_array (t content : List Char)
    (h : tjArrayMatch t = some content) : tjSimpleMatch t = none := by
  cases t with
  | nil => exact absurd h (by simp [tjArrayMatch])
  | cons c rest =>
    by_cases hc : c = '['
    · subst hc
      simp [tjSimpleMatch]
    · exact absurd h (by simp [tjArrayMatch, hc])

lemma processLine_out (fm : List Char → Option FontKey) (pi : ℕ)
    (st : ScanState) (line : List Char) (h : lineFoundKey line = none) :
    (processLine fm pi st line).2 = (line, none) := by
  unfold processLine
  unfold lineFoundKey at h
  cases htm : tmMatch (trimChars line) with
  | some q =>
    obtain ⟨a, d, tx, ty⟩ := q
    simp [htm]
  | none =>
  cases htd : tdMatch (trimChars line) with
  | some q =>
    obtain ⟨dx, dy⟩ := q
    simp [htm, htd]
  | none =>
  cases hta : tjArrayMatch (trimChars line) with
  | some content =>
    rw [hta] at h
    have h' : findPlaceholder (extractTJText content) = none := h
    have hsimple := tjSimpleMatch_none_of_array _ _ hta
    simp [htm, htd, hta, h', hsimple]
  | none =>
    rw [hta] at h
    cases hts : tjSimpleMatch (trimChars line) with
    | some s =>
      rw [hts] at h
      have h' : findPlaceholder s = none := h
      simp [htm, htd, hta, hts, h']
    | none => simp [htm, htd, hta, hts]

lemma blankRecordLines_id (fm : List Char → Option FontKey) (pi : ℕ) :
    ∀ (lines : List (List Char)) (st : ScanState),
      (∀ l ∈ lines, lineFoundKey l = none) →
      blankRecordLines fm pi st lines = (lines, []) := by
  intro lines
  induction lines with
  | nil => intro st _; rfl
  | cons l ls ih =>
    intro st h
    have h1 := processLine_out fm pi st l (h l (List.mem_cons_self _ _))
    have h2 := ih (processLine fm pi st l).1
      (fun x hx => h x (List.mem_cons_of_mem _ hx))
    simp only [blankRecordLines, h1, h2]
    rfl

/-- **C3** Round-trip on non-matching streams: when no TJ array matched by
the developer-note scan has a marker in its extracted text and no line's
show-text operator recognizes a placeholder token, the blank phase
(developer-note blanking then `blankAndRecordPositions`) returns the
stream byte-identical and records no positions. -/
theorem blank_phase_roundtrip (stream : List Char) (pageIndex : ℕ)
    (fontMap : List Char → Option FontKey)
    (hdev : ∀ c ∈ devMatchedContents stream,
      hasDevMarker (extractTJText c) = false)
    (htok : ∀ line ∈ splitOnCh '\n' stream, lineFoundKey line = none) :
    blankDeveloperNote stream = stream ∧
    blankAndRecordPositions (blankDeveloperNote stream) pageIndex fontMap =
      (stream, []) := by
  have h1 : blankDeveloperNote stream = stream :=
    devNoteScan_clean _ _ hdev
  refine ⟨h1, ?_⟩
  rw [h1]
  unfold blankAndRecordPositions
  split_ifs
  · rw [blankRecordLines_id fontMap pageIndex _ _ htok]
    simp [joinCh_splitOnCh]
  · rfl

/-- Witness for C3 on a small non-matching stream. -/
theorem blank_phase_roundtrip_witness :
    blankDeveloperNote ("1 g\n[(hello)] TJ\n(hi) Tj".toList) =
      "1 g\n[(hello)] TJ\n(hi) Tj".toList ∧
    blankAndRecordPositions
        (blankDeveloperNote ("1 g\n[(hello)] TJ\n(hi) Tj".toList)) 0
        (fun _ => none) =
      ("1 g\n[(hello)] TJ\n(hi) Tj".toList, []) :=
  blank_phase_roundtrip ("1 g\n[(hello)] TJ\n(hi) Tj".toList) 0 (fun _ => none)
    (by decide) (by decide)

/-! ### Lemmas for color fidelity -/

lemma trackLineState_fillColor (fm : List Char → Option FontKey)
    (st : ScanState) (t : List Char) :
    (trackLineState fm st t).fillColor =
      match grayMatch t with
      | some g => PdfColor.gray g
      | none =>
        match cmykMatch t with
        | some (c, m, y, k) => PdfColor.cmykColor c m y k
        | none => st.fillColor := by
  unfold trackLineState
  cases htf : tfMatch t with
  | none =>
    cases hcm : cmykMatch t with
    | none =>
      cases hg : grayMatch t with
      | none => simp [htf, hcm, hg]
      | some g => simp [htf, hcm, hg]
    | some q =>
      obtain ⟨c, m, y, k⟩ := q
      cases hg : grayMatch t with
      | none => simp [htf, hcm, hg]
      | some g => simp [htf, hcm, hg]
  | some name =>
    cases hfm : fm name with
    | none =>
      cases hcm : cmykMatch t with
      | none =>
        cases hg : grayMatch t with
        | none => simp [htf, hfm, hcm, hg]
        | some g => simp [htf, hfm, hcm, hg]
      | some q =>
        obtain ⟨c, m, y, k⟩ := q
        cases hg : grayMatch t with
        | none => simp [htf, hfm, hcm, hg]
        | some g => simp [htf, hfm, hcm, hg]
    | some fk =>
      cases hcm : cmykMatch t with
      | none =>
        cases hg : grayMatch t with
        | none => simp [htf, hfm, hcm, hg]
        | some g => simp [htf, hfm, hcm, hg]
      | some q =>
        obtain ⟨c, m, y, k⟩ := q
        cases hg : grayMatch t with
        | none => simp [htf, hfm, hcm, hg]
        | some g => simp [htf, hfm, hcm, hg]

lemma processLine_fst_fillColor (fm : List Char → Option FontKey) (pi : ℕ)
    (st : ScanState) (line : List Char) :
    ((processLine fm pi st line).1).fillColor =
      (trackLineState fm st (trimChars line)).fillColor := by
  simp only [processLine]
  repeat' split
  all_goals rfl

lemma processLine_fillColor (fm : List Char → Option FontKey) (pi : ℕ)
    (st : ScanState) (line : List Char) :
    ((processLine fm pi st line).1).fillColor =
      (lineFillColor line).getD st.fillColor := by
  rw [processLine_fst_fillColor, trackLineState_fillColor]
  cases hg : grayMatch (trimChars line) with
  | some g => simp [lineFillColor, hg]
  | none =>
    cases hcm : cmykMatch (trimChars line) with
    | some q =>
      obtain ⟨c, m, y, k⟩ := q
      simp [lineFillColor, hg, hcm]
    | none => simp [lineFillColor, hg, hcm]

lemma getLast?_getD_cons {α : Type} (a : α) (xs : List α) (d : α) :
    ((a :: xs).getLast?).getD d = (xs.getLast?).getD a := by
  cases xs with
  | nil => rfl
  | cons b xs2 =>
    rw [List.getLast?_cons_cons]
    cases hl : (b :: xs2).getLast? with
    | none => exact absurd (List.getLast?_eq_none_iff.1 hl) (by simp)
    | some y => rfl

lemma scanStateAfter_fillColor (fm : List Char → Option FontKey) (pi : ℕ) :
    ∀ (lines : List (List Char)) (st : ScanState),
      (scanStateAfter fm pi st lines).fillColor =
        ((lines.filterMap lineFillColor).getLast?).getD st.fillColor := by
  intro lines
  induction lines with
  | nil => intro st; rfl
  | cons l ls ih =>
    intro st
    simp only [scanStateAfter]
    rw [ih]
    simp only [List.filterMap_cons]
    cases hl : lineFillColor l with
    | none =>
      rw [processLine_fillColor, hl]
      rfl
    | some col =>
      rw [processLine_fillColor, hl, getLast?_getD_cons]
      rfl

lemma blankRecordLines_append (fm : List Char → Option FontKey) (pi : ℕ) :
    ∀ (xs ys : List (List Char)) (st : ScanState),
      (blankRecordLines fm pi st (xs ++ ys)).2 =
        (blankRecordLines fm pi st xs).2 ++
          (blankRecordLines fm pi (scanStateAfter fm pi st xs) ys).2 := by
  intro xs
  induction xs with
  | nil => intro ys st; rfl
  | cons x xs2 ih =>
    intro ys st
    simp only [List.cons_append, blankRecordLines, scanStateAfter, List.append_eq]
    rw [ih]
    simp [List.append_assoc]

lemma tjArrayMatch_shape (t content : List Char)
    (h : tjArrayMatch t = some content) : ∃ rest, t = '[' :: rest := by
  cases t with
  | nil => exact absurd h (by simp [tjArrayMatch])
  | cons c rest =>
    by_cases hc : c = '['
    · exact ⟨rest, by rw [hc]⟩
    · exact absurd h (by simp [tjArrayMatch, hc])

lemma tjSimpleMatch_shape (t s : List Char)
    (h : tjSimpleMatch t = some s) : ∃ rest, t = '(' :: rest := by
  cases t with
  | nil => exact absurd h (by simp [tjSimpleMatch])
  | cons c rest =>
    by_cases hc : c = '('
    · exact ⟨rest, by rw [hc]⟩
    · exact absurd h (by simp [tjSimpleMatch, hc])

lemma tfMatch_bracket (r : List Char) : tfMatch ('[' :: r) = none := rfl
lemma tfMatch_paren (r : List Char) : tfMatch ('(' :: r) = none := rfl
lemma cmykMatch_bracket (r : List Char) : cmykMatch ('[' :: r) = none := rfl
lemma cmykMatch_paren (r : List Char) : cmykMatch ('(' :: r) = none := rfl
lemma grayMatch_bracket (r : List Char) : grayMatch ('[' :: r) = none := rfl
lemma grayMatch_paren (r : List Char) : grayMatch ('(' :: r) = none := rfl
lemma tmMatch_bracket (r : List Char) : tmMatch ('[' :: r) = none := rfl
lemma tmMatch_paren (r : List Char) : tmMatch ('(' :: r) = none := rfl
lemma tdMatch_bracket (r : List Char) : tdMatch ('[' :: r) = none := rfl
lemma tdMatch_paren (r : List Char) : tdMatch ('(' :: r) = none := rfl

/-- Full characterization of `processLine` on a token-bearing show-text
line: the state is unchanged, the output line is `'() Tj'`, and the
recorded position takes all its fields from the current scan state. -/
lemma processLine_token (fm : List Char → Option FontKey) (pi : ℕ)
    (st : ScanState) (line : List Char) (key : List Char)
    (h : lineFoundKey line = some key) :
    processLine fm pi st line =
      (st, blankTjLine,
        some (recordedPosition pi st key (lineShownText line))) := by
  unfold processLine
  unfold lineFoundKey at h
  cases hta : tjArrayMatch (trimChars line) with
  | some content =>
    rw [hta] at h
    have h' : findPlaceholder (extractTJText content) = some key := h
    obtain ⟨rest, hrest⟩ := tjArrayMatch_shape _ _ hta
    have hshown : lineShownText line = extractTJText content := by
      unfold lineShownText
      rw [hta]
    have htf : tfMatch (trimChars line) = none := by rw [hrest]; rfl
    have hcm : cmykMatch (trimChars line) = none := by rw [hrest]; rfl
    have hg : grayMatch (trimChars line) = none := by rw [hrest]; rfl
    have htm : tmMatch (trimChars line) = none := by rw [hrest]; rfl
    have htd : tdMatch (trimChars line) = none := by rw [hrest]; rfl
    rw [hshown]
    simp [trackLineState, recordedPosition, htf, hcm, hg, htm, htd, hta, h']
  | none =>
    rw [hta] at h
    cases hts : tjSimpleMatch (trimChars line) with
    | none =>
      rw [hts] at h
      have h' : (none : Option (List Char)) = some key := h
      cases h'
    | some s =>
      rw [hts] at h
      have h' : findPlaceholder s = some key := h
      obtain ⟨rest, hrest⟩ := tjSimpleMatch_shape _ _ hts
      have hshown : lineShownText line = s := by
        unfold lineShownText
        rw [hta, hts]
      have htf : tfMatch (trimChars line) = none := by rw [hrest]; rfl
      have hcm : cmykMatch (trimChars line) = none := by rw [hrest]; rfl
      have hg : grayMatch (trimChars line) = none := by rw [hrest]; rfl
      have htm : tmMatch (trimChars line) = none := by rw [hrest]; rfl
      have htd : tdMatch (trimChars line) = none := by rw [hrest]; rfl
      rw [hshown]
      simp [trackLineState, recordedPosition, htf, hcm, hg, htm, htd, hta, hts, h']

/-- **C4** Color fidelity: a recorded position's fill color equals the
value set by the most recent fill-color operator (`g` or `k`) preceding
the matched show-text operator in scan order — later operators override
earlier ones — and `{gray: 0}` when none precedes; with a concrete
interleaving check where the later of two fill operators wins. -/
theorem color_fidelity :
    (∀ (fm : List Char → Option FontKey) (pi : ℕ)
      (pre suf : List (List Char)) (l key : List Char),
      lineFoundKey l = some key →
      ∃ p rest,
        (blankRecordLines fm pi initScanState (pre ++ l :: suf)).2 =
          (blankRecordLines fm pi initScanState pre).2 ++ p :: rest ∧
        p.color = lastFillColor pre) ∧
    ((blankAndRecordPositions
        ("1 g\n0 1 0 1 k\n[(\x7b\x7bTotal_Score\x7d\x7d)] TJ".toList)
        1 (fun _ => none)).2.map (fun p => p.color) =
      [PdfColor.cmykColor 0 1 0 1]) := by
  constructor
  · intro fm pi pre suf l key h
    have htok := processLine_token fm pi (scanStateAfter fm pi initScanState pre) l key h
    have hstep : (blankRecordLines fm pi (scanStateAfter fm pi initScanState pre)
        (l :: suf)).2 =
        recordedPosition pi (scanStateAfter fm pi initScanState pre) key
            (lineShownText l) ::
          (blankRecordLines fm pi (scanStateAfter fm pi initScanState pre) suf).2 := by
      simp only [blankRecordLines, htok]
      rfl
    refine ⟨recordedPosition pi (scanStateAfter fm pi initScanState pre) key
        (lineShownText l),
      (blankRecordLines fm pi (scanStateAfter fm pi initScanState pre) suf).2,
      ?_, ?_⟩
    · rw [blankRecordLines_append, hstep]
    · show (recordedPosition pi (scanStateAfter fm pi initScanState pre) key
          (lineShownText l)).color = lastFillColor pre
      show (scanStateAfter fm pi initScanState pre).fillColor = lastFillColor pre
      rw [scanStateAfter_fillColor]
      rfl
  · decide

/-- Witness for C4: a grayscale operator precedes the token line. -/
theorem color_fidelity_witness :
    ∃ p rest,
      (blankRecordLines (fun _ => none) 1 initScanState
          (["1 g".toList] ++
            "[(\x7b\x7bTotal_Score\x7d\x7d)] TJ".toList :: [])).2 =
        (blankRecordLines (fun _ => none) 1 initScanState ["1 g".toList]).2 ++
          p :: rest ∧
      p.color = lastFillColor ["1 g".toList] :=
  color_fidelity.1 (fun _ => none) 1 ["1 g".toList] []
    ("[(\x7b\x7bTotal_Score\x7d\x7d)] TJ".toList) tokTotalScore (by decide)

/-! ### Missing replacement values are skipped at draw time -/

lemma opsFor_missing (fw : FontKey → ℚ → List Char → ℚ)
    (repl : List Char → Option (List Char)) (p : PlaceholderPosition)
    (h : repl p.key = none ∨ PLACEHOLDER_CONFIG p.key = none) :
    opsFor fw repl p = [] := by
  unfold opsFor
  rcases h with h | h
  · split_ifs <;> simp [h]
  · cases hr : repl p.key with
    | none => split_ifs <;> simp [hr]
    | some rawValue => split_ifs <;> simp [hr, h]

/-- **C9** Missing replacement value is non-fatal: a recorded position whose
token has no replacement value or no rendering-rule configuration
contributes no draw operations, the other positions' draw output is
unchanged, and the blank pass has already replaced the original show-text
operator with the empty `'() Tj'`. -/
theorem missing_replacement_skipped
    (fw : FontKey → ℚ → List Char → ℚ) (repl : List Char → Option (List Char))
    (pre post : List PlaceholderPosition) (p : PlaceholderPosition)
    (fm : List Char → Option FontKey) (pi : ℕ) (st : ScanState)
    (l key : List Char)
    (hmiss : repl p.key = none ∨ PLACEHOLDER_CONFIG p.key = none)
    (hline : lineFoundKey l = some key) :
    opsFor fw repl p = [] ∧
    drawPositions fw repl (pre ++ p :: post) = drawPositions fw repl (pre ++ post) ∧
    (processLine fm pi st l).2.1 = blankTjLine := by
  have h0 := opsFor_missing fw repl p hmiss
  refine ⟨h0, ?_, ?_⟩
  · unfold drawPositions
    simp [h0]
  · rw [processLine_token fm pi st l key hline]

/-- Witness for C9: an empty replacements map skips a Total_Score position. -/
theorem missing_replacement_skipped_witness :
    opsFor (fun _ _ _ => 0) (fun _ => none)
      (recordedPosition 0 initScanState tokTotalScore []) = [] ∧
    drawPositions (fun _ _ _ => 0) (fun _ => none)
      ([] ++ recordedPosition 0 initScanState tokTotalScore [] :: []) =
      drawPositions (fun _ _ _ => 0) (fun _ => none) ([] ++ []) ∧
    (processLine (fun _ => none) 0 initScanState
      "[(\x7b\x7bTotal_Score\x7d\x7d)] TJ".toList).2.1 = blankTjLine :=
  missing_replacement_skipped (fun _ _ _ => 0) (fun _ => none) [] []
    (recordedPosition 0 initScanState tokTotalScore []) (fun _ => none) 0
    initScanState ("[(\x7b\x7bTotal_Score\x7d\x7d)] TJ".toList) tokTotalScore
    (Or.inl rfl) (by decide)

end Scorecard
